import Mathlib

/-!
# Hybrid content recommender - formal model

A shallow embedding of the recommendation engine of the ai-pipeline example
(`app/model/recommender.py` and `app/main.py`), together with theorems that
check the natural-language specification of the engine.

Modelling conventions:
* numpy / Python floats are modelled as exact rationals (`ℚ`);
* the sparse CSR interaction matrix is modelled as a list of rows, each row
  being the list of stored `(column, weight)` entries of that user;
* the external TF-IDF content-similarity matrix (built by scikit-learn from
  catalog text) is an opaque parameter `cm : ℕ → ℕ → ℚ` of the scoring
  functions - no claim depends on its concrete values;
* the external ALS fit (`implicit` library) is modelled by an `AlsOutcome`
  value: either an exception during the fit (`failure`) or a pair of factor
  matrices (`success`);
* `np.argpartition`/`np.argsort` have an implementation-defined order on
  equal keys, so the top-k selection step is modelled relationally: the
  predicate `isRecommendOutput` holds for every output list the documented
  contract of those primitives allows.
-/

namespace Recommender

/-- Configuration of the recommender: the collaborative blend weight
(`collab_weight`, default 0.7) and the minimum number of stored interactions
needed before collaborative training / scoring is used
(`min_interactions_for_collab`, default 5). -/
structure Config where
  collabWeight : ℚ
  minInteractionsForCollab : ℕ

/-- The defaults of `Recommender.__init__` / `config.py`. -/
def defaultConfig : Config := ⟨7/10, 5⟩

/-- One catalog entry.  The source items also carry `title`, `genres`, `tags`
and `year`; of those fields only `id` and the numeric `rating` influence the
claims checked here (`genres`/`tags` feed the external TF-IDF content index,
which is modelled as an opaque parameter). -/
structure CatalogItem where
  id : String
  rating : ℚ
deriving DecidableEq

/-- The static 50-item catalog of `app/data/catalog.py` (ids and ratings). -/
def CATALOG : List CatalogItem :=
  [⟨"m001", 8.8⟩, ⟨"m002", 8.6⟩, ⟨"m003", 8.7⟩, ⟨"m004", 7.9⟩, ⟨"m005", 7.7⟩,
   ⟨"m006", 8.0⟩, ⟨"m007", 6.8⟩, ⟨"m008", 8.0⟩, ⟨"m009", 8.6⟩, ⟨"m010", 8.1⟩,
   ⟨"m011", 8.2⟩, ⟨"m012", 8.2⟩, ⟨"m013", 8.5⟩, ⟨"m014", 7.8⟩, ⟨"m015", 7.9⟩,
   ⟨"m016", 8.1⟩, ⟨"m017", 7.4⟩, ⟨"m018", 7.7⟩, ⟨"m019", 9.0⟩, ⟨"m020", 7.9⟩,
   ⟨"m021", 7.3⟩, ⟨"m022", 7.7⟩, ⟨"m023", 7.5⟩, ⟨"m024", 7.1⟩, ⟨"m025", 6.9⟩,
   ⟨"m026", 8.1⟩, ⟨"m027", 7.9⟩, ⟨"m028", 7.0⟩, ⟨"m029", 7.6⟩, ⟨"m030", 7.4⟩,
   ⟨"m031", 8.2⟩, ⟨"m032", 8.6⟩, ⟨"m033", 9.1⟩, ⟨"m034", 7.9⟩, ⟨"m035", 8.4⟩,
   ⟨"m036", 7.9⟩, ⟨"m037", 8.0⟩, ⟨"m038", 8.1⟩, ⟨"m039", 8.0⟩, ⟨"m040", 8.3⟩,
   ⟨"m041", 8.4⟩, ⟨"m042", 8.6⟩, ⟨"m043", 8.4⟩, ⟨"m044", 8.4⟩, ⟨"m045", 8.5⟩,
   ⟨"m046", 8.6⟩, ⟨"m047", 7.7⟩, ⟨"m048", 9.0⟩, ⟨"m049", 8.1⟩, ⟨"m050", 8.1⟩]

/-- `self._item_ids`: catalog-ordered list of item ids. -/
def itemIds : List String := CATALOG.map (·.id)

/-- First index of a string in a list (`none` if absent).  Models a Python
dict built by `{id_: i for i, id_ in enumerate(...)}` (ids are unique, so
first index = unique index) and `list.index`-style position lookups. -/
def indexOfStr : List String → String → Option ℕ
  | [], _ => none
  | v :: rest, s => if v = s then some 0 else (indexOfStr rest s).map (· + 1)

/-- `self._item_index`: item id -> catalog position. -/
def itemIndex (s : String) : Option ℕ := indexOfStr itemIds s

/-- A raw engagement event `(user_id, item_id, event_type, value)`. -/
structure Event where
  userId : String
  itemId : String
  eventType : String
  value : ℚ
deriving DecidableEq

/-- `_EVENT_WEIGHTS.get(event_type, 1.0)`: type multiplier with default 1. -/
def eventWeightMultiplier (t : String) : ℚ :=
  if t = "view_complete" then 4
  else if t = "rating" then 3
  else if t = "view_start" then 1
  else if t = "search" then 1/2
  else 1

/-- Insertion-ordered association list lookup with `String`-pair keys
(Python dict lookup for the `interactions` accumulator). -/
def lookupW : List ((String × String) × ℚ) → (String × String) → Option ℚ
  | [], _ => none
  | (k0, w) :: rest, k => if k0 = k then some w else lookupW rest k

/-- `interactions[key] = interactions.get(key, 0.0) + weight`: add `w` to the
entry at key `k`, appending a fresh entry if the key is new (Python dicts
keep insertion order). -/
def addWeight : List ((String × String) × ℚ) → (String × String) → ℚ →
    List ((String × String) × ℚ)
  | [], k, w => [(k, w)]
  | (k0, w0) :: rest, k, w =>
      if k0 = k then (k0, w0 + w) :: rest else (k0, w0) :: addWeight rest k w

/-- Accumulator state of the event loop in `_build_user_item_matrix`:
the `interactions` dict and the insertion-ordered `users` dict (a user's
index is its position in the list). -/
structure AggState where
  interactions : List ((String × String) × ℚ)
  users : List String
deriving DecidableEq

/-- One iteration of the event loop of `_build_user_item_matrix`: events whose
item id is not in the catalog index are skipped; otherwise the weighted value
is accumulated per `(user_id, item_id)` key and the user is indexed on first
sight. -/
def aggStep (st : AggState) (e : Event) : AggState :=
  match itemIndex e.itemId with
  | none => st
  | some _ =>
      { interactions :=
          addWeight st.interactions (e.userId, e.itemId)
            (eventWeightMultiplier e.eventType * e.value),
        users := if e.userId ∈ st.users then st.users else st.users ++ [e.userId] }

/-- The full accumulation loop of `_build_user_item_matrix`. -/
def aggregateEvents (events : List Event) : AggState :=
  events.foldl aggStep ⟨[], []⟩

/-- The stored entries of one user's row of the CSR matrix: every accumulated
interaction of that user, as a `(column, weight)` pair.  (For accumulated
interactions `itemIndex` is always `some`; the `Option.map` keeps the
definition total.) -/
def userRow (inter : List ((String × String) × ℚ)) (u : String) : List (ℕ × ℚ) :=
  inter.filterMap (fun p =>
    if p.1.1 = u then (itemIndex p.1.2).map (fun c => (c, p.2)) else none)

/-- `_build_user_item_matrix`: the sparse user-item matrix (list of rows of
stored entries, row index = user index) together with the user index.  When
no valid event exists both components are empty, which is the code's
`csr_matrix((0, n_items))` empty-matrix branch. -/
def buildUserItemMatrix (events : List Event) : List (List (ℕ × ℚ)) × List String :=
  let st := aggregateEvents events
  (st.users.map (userRow st.interactions), st.users)

/-- `matrix.nnz`: number of stored values of the CSR matrix (scipy counts
stored entries, explicit zeros included). -/
def nnz (m : List (List (ℕ × ℚ))) : ℕ := (m.map List.length).sum

/-- Generic insertion-ordered association list lookup with `String` keys
(Python dict `.get`). -/
def alookup {β : Type} : List (String × β) → String → Option β
  | [], _ => none
  | (k0, v) :: rest, k => if k0 = k then some v else alookup rest k

/-- Pair each element of a list with `f index element`, indices starting
at `i` (models the `for user_id, u_idx in user_index.items()` loop). -/
def withIdx {β : Type} (f : ℕ → String → β) : ℕ → List String → List (String × β)
  | _, [] => []
  | i, u :: us => (u, f i u) :: withIdx f (i + 1) us

/-- The snapshot of mutable model state published (all fields together,
under `self._lock`) at the end of `train`. -/
structure RecState where
  userFactors : List (String × List ℚ)
  itemFactors : Option (List (List ℚ))
  matrix : Option (List (List (ℕ × ℚ)))
  userIndex : List String
  nUsers : ℕ
  nInteractions : ℕ
deriving DecidableEq

/-- Result of calling the external ALS fit (`implicit.als`): the fit either
raises (caught by the `except` clause) or yields a user-factor matrix
(one row per indexed user) and an item-factor matrix (one row per item). -/
inductive AlsOutcome where
  | failure
  | success (userF : List (List ℚ)) (itemF : List (List ℚ))
deriving DecidableEq

/-- `train`: rebuild the interaction matrix from the complete event list,
fit the ALS model only when `HAS_IMPLICIT` holds and `matrix.nnz` meets the
configured minimum (a fit failure leaves all collaborative artifacts `None`),
then publish the whole new state.  `model.user_factors[u_idx]` is modelled by
`userF.getD u_idx []` (the ALS contract gives one row per indexed user). -/
def train (cfg : Config) (hasImplicit : Bool) (outcome : AlsOutcome)
    (events : List Event) : RecState :=
  let built := buildUserItemMatrix events
  let n := nnz built.1
  let fitted :=
    if hasImplicit = true ∧ n ≥ cfg.minInteractionsForCollab then
      match outcome with
      | .failure => (([] : List (String × List ℚ)), (none : Option (List (List ℚ))))
      | .success userF itemF =>
          (withIdx (fun i _ => userF.getD i []) 0 built.2, some itemF)
    else (([] : List (String × List ℚ)), (none : Option (List (List ℚ))))
  { userFactors := fitted.1, itemFactors := fitted.2, matrix := some built.1,
    userIndex := built.2, nUsers := built.2.length, nInteractions := n }

/-- Items the user has already watched: the item ids of the stored entries of
the user's row of the current interaction matrix (a Python `set`; row columns
are distinct, `dedup` is the canonical representative).  Empty when the user
is unknown or no matrix exists. -/
def watchedOf (st : RecState) (u : String) : List String :=
  match indexOfStr st.userIndex u, st.matrix with
  | some i, some m => ((m.getD i []).map (fun p => itemIds.getD p.1 "")).dedup
  | _, _ => []

/-- Inner product of two factor vectors (`item_factors @ user_factor`, one
row at a time). -/
def dot (xs ys : List ℚ) : ℚ := (xs.zip ys |>.map (fun p => p.1 * p.2)).sum

/-- `item_factors @ user_factor`: one collaborative score per catalog item. -/
def rawCollabScores (itf : List (List ℚ)) (uf : List ℚ) : List ℚ :=
  (List.range itemIds.length).map (fun i => dot (itf.getD i []) uf)

/-- `np.min` over a (nonempty) score vector. -/
def listMin : List ℚ → ℚ
  | [] => 0
  | x :: xs => xs.foldl min x

/-- `np.max` over a (nonempty) score vector. -/
def listMax : List ℚ → ℚ
  | [] => 0
  | x :: xs => xs.foldl max x

/-- The normalization step of `recommend`: `if c_max > c_min` rescale to
`[0,1]`, otherwise leave the vector unchanged. -/
def normalizeMinMax (xs : List ℚ) : List ℚ :=
  let mn := listMin xs
  let mx := listMax xs
  if mx > mn then xs.map (fun x => (x - mn) / (mx - mn)) else xs

/-- The collaborative score vector used by `recommend` when collaborative
scoring is active: raw scores min-max normalized. -/
def collabScoresNorm (itf : List (List ℚ)) (uf : List ℚ) : List ℚ :=
  normalizeMinMax (rawCollabScores itf uf)

/-- `_content_scores`: sum the content-similarity rows of the watched items
that resolve in the catalog index, then divide by their count when positive. -/
def contentScores (cm : ℕ → ℕ → ℚ) (watched : List String) : List ℚ :=
  let idxs := watched.filterMap itemIndex
  let sums := (List.range itemIds.length).map (fun j => (idxs.map (fun i => cm i j)).sum)
  if idxs.length > 0 then sums.map (fun s => s / idxs.length) else sums

/-- `np.zeros(len(self._item_ids))`. -/
def zerosItems : List ℚ := List.replicate itemIds.length 0

/-- The score computation and blend-mode selection of `recommend`, before the
already-watched items are forced to the sentinel: returns the blended score
vector and the `source` label. -/
def blendScores (cm : ℕ → ℕ → ℚ) (cfg : Config) (hasImplicit : Bool)
    (st : RecState) (u : String) : List ℚ × String :=
  let uf := alookup st.userFactors u
  let itf := st.itemFactors
  let watched := watchedOf st u
  let hasCollab := hasImplicit && uf.isSome && itf.isSome &&
    decide (watched.length ≥ cfg.minInteractionsForCollab)
  let collab :=
    if hasCollab then collabScoresNorm (itf.getD []) (uf.getD []) else zerosItems
  let content := if watched.isEmpty then zerosItems else contentScores cm watched
  if hasCollab then
    (List.zipWith (fun a b => cfg.collabWeight * a + (1 - cfg.collabWeight) * b)
       collab content,
     if watched.isEmpty then "collaborative" else "hybrid")
  else if watched.isEmpty = false then (content, "content")
  else (CATALOG.map (fun it => it.rating / 10), "trending")

/-- `for item_id in watched: final_scores[self._item_index[item_id]] = -1.0`:
force every watched item to the sentinel score. -/
def applySentinel (fs : List ℚ) (watched : List String) : List ℚ :=
  watched.foldl (fun v wid =>
    match itemIndex wid with
    | some i => v.set i (-1)
    | none => v) fs

/-- The final score vector (after the sentinel overwrite) and `source` label
of one `recommend` call. -/
def recommendScores (cm : ℕ → ℕ → ℚ) (cfg : Config) (hasImplicit : Bool)
    (st : RecState) (u : String) : List ℚ × String :=
  let bs := blendScores cm cfg hasImplicit st u
  (applySentinel bs.1 (watchedOf st u), bs.2)

/-- Round half to even, as Python `round` does. -/
def roundHalfEven (x : ℚ) : ℤ :=
  if x - ⌊x⌋ < 1/2 then ⌊x⌋
  else if 1/2 < x - ⌊x⌋ then ⌊x⌋ + 1
  else if ⌊x⌋ % 2 = 0 then ⌊x⌋ else ⌊x⌋ + 1

/-- `round(score, 4)`. -/
def round4 (x : ℚ) : ℚ := (roundHalfEven (x * 10000) : ℚ) / 10000

/-- One record of the list returned by `recommend`.  The source record also
carries `title`, `genres`, `tags`, `year` and `catalog_rating`, copied
verbatim from the catalog entry; the claims only mention `id`, the rounded
`score` and the `source` label. -/
structure RecResult where
  id : String
  score : ℚ
  source : String
deriving DecidableEq

/-- Build the result record for catalog position `i`. -/
def mkResult (fs : List ℚ) (src : String) (i : ℕ) : RecResult :=
  { id := itemIds.getD i "", score := round4 (fs.getD i 0), source := src }

/-- The result-building loop of `recommend`: walk the ordered selection,
skip sentinel-marked (negative) entries, then `results[:top_k]`. -/
def resultsOf (fs : List ℚ) (src : String) (sel : List ℕ) (k : ℕ) : List RecResult :=
  ((sel.filter (fun i => decide (0 ≤ fs.getD i 0))).map (mkResult fs src)).take k

/-- Insert into a descending-sorted list. -/
def insertDesc (x : ℚ) : List ℚ → List ℚ
  | [] => [x]
  | y :: ys => if y ≤ x then x :: y :: ys else y :: insertDesc x ys

/-- Sort a score list into descending order (used to state the contract of
the numpy selection primitives). -/
def sortDesc (xs : List ℚ) : List ℚ := xs.foldr insertDesc []

/-- The score values at the selected positions. -/
def selValues (fs : List ℚ) (sel : List ℕ) : List ℚ := sel.map (fun i => fs.getD i 0)

/-- The contract of `np.argpartition(fs, -k)[-k:]` followed by
`[np.argsort(...)][::-1]` for `1 ≤ k ≤ len(fs)`: a list of `k` distinct
in-range positions whose values are exactly the `k` largest values of `fs`
(as a multiset) arranged in descending order.  The order of positions with
equal values is implementation-defined, so every such list is admitted. -/
def isValidSelection (fs : List ℚ) (k : ℕ) (sel : List ℕ) : Prop :=
  sel.length = k ∧ sel.Nodup ∧ (∀ i ∈ sel, i < fs.length) ∧
  (selValues fs sel).Perm ((sortDesc fs).take k) ∧
  sel.Pairwise (fun a b => fs.getD b 0 ≤ fs.getD a 0)

/-- All outputs one call `recommend(user_id, top_k)` may return, given the
guarantees of the selection primitives.  `np.argpartition(fs, -top_k)`
demands `top_k ≤ len(fs)` (it raises `ValueError` otherwise), hence the
`k ≤ itemIds.length` bound. -/
def isRecommendOutput (cm : ℕ → ℕ → ℚ) (cfg : Config) (hasImplicit : Bool)
    (st : RecState) (u : String) (k : ℕ) (out : List RecResult) : Prop :=
  1 ≤ k ∧ k ≤ itemIds.length ∧
  ∃ sel, isValidSelection (recommendScores cm cfg hasImplicit st u).1 k sel ∧
    out = resultsOf (recommendScores cm cfg hasImplicit st u).1
      (recommendScores cm cfg hasImplicit st u).2 sel k

/-! ## The API layer (`app/main.py`): ingest and the retrain trigger -/

/-- The engine-level mutable state of `main.py`: the in-memory event buffer
and the `_event_count_since_retrain` counter. -/
structure EngineState where
  inMemoryEvents : List Event
  eventCount : ℕ
deriving DecidableEq

/-- Outcome of `POST /events`: accepted (HTTP 202), or rejected with reason
unknown item id (HTTP 404) / unrecognized event type (HTTP 422). -/
inductive IngestResult where
  | accepted
  | rejectedUnknownItem
  | rejectedUnknownType
deriving DecidableEq

/-- The `allowed_types` set of `ingest_event`. -/
def allowedEventTypes : List String := ["view_start", "view_complete", "rating", "search"]

/-- `_maybe_trigger_retrain`: under `_retrain_lock` increment the counter and
decide whether to spawn a retrain thread.  The counter is NOT reset here. -/
def maybeTriggerRetrain (threshold : ℕ) (count : ℕ) : ℕ × Bool :=
  (count + 1, decide (count + 1 ≥ threshold))

/-- `ingest_event`: validate item id against the catalog, then the event type
against the allowed set; on success persist the event (the external store
write is best-effort and outside the engine state), append it to the
in-memory buffer and run the retrain trigger.  Returns the HTTP outcome, the
new engine state, and whether a background retrain thread was spawned by this
call (the thread body runs later, after the call has returned). -/
def ingestEvent (threshold : ℕ) (st : EngineState) (e : Event) :
    IngestResult × EngineState × Bool :=
  if (itemIndex e.itemId).isNone then (.rejectedUnknownItem, st, false)
  else if e.eventType ∉ allowedEventTypes then (.rejectedUnknownType, st, false)
  else
    let t := maybeTriggerRetrain threshold st.eventCount
    (.accepted, ⟨st.inMemoryEvents ++ [e], t.1⟩, t.2)

/-- `_retrain_background`: retrain from the full event history (the durable
store, falling back to the in-memory buffer - modelled by the buffer), and
only then, at the very end of the background thread, reset the event counter
to zero. -/
def retrainBackground (cfg : Config) (hasImplicit : Bool) (outcome : AlsOutcome)
    (st : EngineState) : EngineState × RecState :=
  (⟨st.inMemoryEvents, 0⟩, train cfg hasImplicit outcome st.inMemoryEvents)

/-! ## The snapshot protocol (`self._lock`) as a small-step machine

`train` publishes the new model by writing the eight mutable fields one after
another while holding `self._lock`; `recommend` reads its five inputs one
after another while holding the same lock.  The machine below interleaves the
two threads at single-field granularity; the lock is the only thing that
prevents a torn read. -/

/-- The mutable fields of the `Recommender` object that `train` writes under
the lock.  `alsModel` models `self._als_model` by its presence, `trainedAt`
abstracts the wall-clock timestamp. -/
structure Mem where
  alsModel : Bool
  userFactors : List (String × List ℚ)
  itemFactors : Option (List (List ℚ))
  matrix : Option (List (List (ℕ × ℚ)))
  userIndex : List String
  nUsers : ℕ
  nInteractions : ℕ
  trainedAt : ℕ
deriving DecidableEq

/-- The shared memory depends only on how far the writer has advanced: the
writer's program is acquire (pc 0→1), eight field writes in source order
(pc 1→9), release (pc 9→10); after pc `p` the first `p - 1` fields hold the
new values. -/
def memAt (pre post : Mem) (wpc : ℕ) : Mem :=
  { alsModel := if 2 ≤ wpc then post.alsModel else pre.alsModel,
    userFactors := if 3 ≤ wpc then post.userFactors else pre.userFactors,
    itemFactors := if 4 ≤ wpc then post.itemFactors else pre.itemFactors,
    matrix := if 5 ≤ wpc then post.matrix else pre.matrix,
    userIndex := if 6 ≤ wpc then post.userIndex else pre.userIndex,
    nUsers := if 7 ≤ wpc then post.nUsers else pre.nUsers,
    nInteractions := if 8 ≤ wpc then post.nInteractions else pre.nInteractions,
    trainedAt := if 9 ≤ wpc then post.trainedAt else pre.trainedAt }

/-- The local variables `recommend` fills while holding the lock; the outer
`Option` marks whether the read has happened yet. -/
structure ReaderLocals where
  userFactor : Option (Option (List ℚ))
  itemFactors : Option (Option (List (List ℚ)))
  userIdx : Option (Option ℕ)
  matrix : Option (Option (List (List (ℕ × ℚ))))
  userIndex : Option (List String)
deriving DecidableEq

/-- Locals before any read. -/
def emptyLocals : ReaderLocals := ⟨none, none, none, none, none⟩

/-- The locals after the reader has executed its first `rpc - 1` reads
against memory `m` (reader program: acquire = pc 0→1, five reads = pc 1→6,
release = pc 6→7). -/
def localsUpTo (m : Mem) (u : String) (rpc : ℕ) : ReaderLocals :=
  { userFactor := if 2 ≤ rpc then some (alookup m.userFactors u) else none,
    itemFactors := if 3 ≤ rpc then some m.itemFactors else none,
    userIdx := if 4 ≤ rpc then some (indexOfStr m.userIndex u) else none,
    matrix := if 5 ≤ rpc then some m.matrix else none,
    userIndex := if 6 ≤ rpc then some m.userIndex else none }

/-- Joint state of the writer thread, one reader thread, and the lock. -/
structure SysState where
  wpc : ℕ
  rpc : ℕ
  lockW : Bool
  lockR : Bool
  locals : ReaderLocals
deriving DecidableEq

/-- Initial state: neither thread has started, lock free. -/
def initSys : SysState := ⟨0, 0, false, false, emptyLocals⟩

/-- One step of the writer (`train`'s publication block).  Acquiring blocks
(no-op) while the reader holds the lock. -/
def wstep (s : SysState) : SysState :=
  if s.wpc = 0 then
    if s.lockR then s else { s with wpc := 1, lockW := true }
  else if s.wpc ≤ 8 then { s with wpc := s.wpc + 1 }
  else if s.wpc = 9 then { s with wpc := 10, lockW := false }
  else s

/-- The read the reader performs at program counter `rpc ∈ [1,5]`: copy one
field of the shared memory `m` into the matching local, in the source order
of `recommend`'s snapshot block (`user_factor`, `item_factors`, `user_idx`,
`matrix`, `user_index`). -/
def setLocal (rpc : ℕ) (m : Mem) (u : String) (l : ReaderLocals) : ReaderLocals :=
  if rpc = 1 then { l with userFactor := some (alookup m.userFactors u) }
  else if rpc = 2 then { l with itemFactors := some m.itemFactors }
  else if rpc = 3 then { l with userIdx := some (indexOfStr m.userIndex u) }
  else if rpc = 4 then { l with matrix := some m.matrix }
  else if rpc = 5 then { l with userIndex := some m.userIndex }
  else l

/-- One step of the reader (`recommend`'s snapshot block).  Acquiring blocks
while the writer holds the lock; each read step copies one field of the
current shared memory into a local. -/
def rstep (pre post : Mem) (u : String) (s : SysState) : SysState :=
  if s.rpc = 0 then
    if s.lockW then s else { s with rpc := 1, lockR := true }
  else if s.rpc ≤ 5 then
    { s with
      rpc := s.rpc + 1
      locals := setLocal s.rpc (memAt pre post s.wpc) u s.locals }
  else if s.rpc = 6 then { s with rpc := 7, lockR := false }
  else s

/-- Run an arbitrary interleaving: `true` schedules the writer, `false` the
reader. -/
def runSched (pre post : Mem) (u : String) (sched : List Bool) (s : SysState) : SysState :=
  sched.foldl (fun st b => if b then wstep st else rstep pre post u st) s

/-- The memory snapshot a `RecState` publishes (the eight values `train`
writes). -/
def memOfState (st : RecState) (t : ℕ) : Mem :=
  ⟨st.itemFactors.isSome, st.userFactors, st.itemFactors, st.matrix,
   st.userIndex, st.nUsers, st.nInteractions, t⟩

/-! ## Helper lemmas: aggregation -/

theorem aggregateEvents_concat (es : List Event) (e : Event) :
    aggregateEvents (es ++ [e]) = aggStep (aggregateEvents es) e := by
  simp [aggregateEvents, List.foldl_append]

theorem lookupW_addWeight_self (l : List ((String × String) × ℚ))
    (k : String × String) (w : ℚ) :
    lookupW (addWeight l k w) k = some ((lookupW l k).getD 0 + w) := by
  induction l with
  | nil => simp [addWeight, lookupW]
  | cons p rest ih =>
      obtain ⟨k0, w0⟩ := p
      by_cases h : k0 = k
      · subst h; simp [addWeight, lookupW]
      · simp [addWeight, lookupW, h, ih]

theorem lookupW_addWeight_ne (l : List ((String × String) × ℚ))
    {k k1 : String × String} (w : ℚ) (h : k1 ≠ k) :
    lookupW (addWeight l k w) k1 = lookupW l k1 := by
  induction l with
  | nil =>
      have h2 : ¬ k = k1 := fun hh => h hh.symm
      simp [addWeight, lookupW, h2]
  | cons p rest ih =>
      obtain ⟨k0, w0⟩ := p
      by_cases h0 : k0 = k
      · subst h0
        have : k0 ≠ k1 := fun hh => h (hh ▸ rfl)
        simp [addWeight, lookupW, this]
      · by_cases h1 : k0 = k1
        · subst h1; simp [addWeight, lookupW, h0]
        · simp [addWeight, lookupW, h0, h1, ih]

theorem lookupW_eq_some_mem {l : List ((String × String) × ℚ)}
    {k : String × String} {w : ℚ} (h : lookupW l k = some w) : (k, w) ∈ l := by
  induction l with
  | nil => simp [lookupW] at h
  | cons p rest ih =>
      obtain ⟨k0, w0⟩ := p
      by_cases h0 : k0 = k
      · subst h0
        simp [lookupW] at h
        subst h
        exact List.mem_cons_self _ _
      · simp only [lookupW, if_neg h0] at h
        exact List.mem_cons_of_mem _ (ih h)

/-- The total weight all events of a list contribute to one
`(user, item)` pair. -/
def accumulatedWeight (events : List Event) (u iid : String) : ℚ :=
  ((events.filter (fun e => decide (e.userId = u ∧ e.itemId = iid))).map
    (fun e => eventWeightMultiplier e.eventType * e.value)).sum

theorem lookupW_aggregate (events : List Event) (u iid : String) :
    lookupW (aggregateEvents events).interactions (u, iid) =
      if (itemIndex iid).isSome ∧ (∃ e ∈ events, e.userId = u ∧ e.itemId = iid)
      then some (accumulatedWeight events u iid) else none := by
  induction events using List.reverseRecOn with
  | nil => simp [aggregateEvents, lookupW, accumulatedWeight]
  | append_singleton es e ih =>
      rw [aggregateEvents_concat]
      by_cases hm : e.userId = u ∧ e.itemId = iid
      · rcases hI : itemIndex e.itemId with _ | j
        · have hiid : itemIndex iid = none := hm.2 ▸ hI
          simp [aggStep, hI, ih, hiid]
        · have hkey : (e.userId, e.itemId) = (u, iid) := by
            rw [hm.1, hm.2]
          have hiid : (itemIndex iid).isSome := by
            rw [← hm.2, hI]; rfl
          simp only [aggStep, hI]
          rw [← hkey, lookupW_addWeight_self, hkey, ih]
          have hacc : accumulatedWeight (es ++ [e]) u iid =
              accumulatedWeight es u iid +
                eventWeightMultiplier e.eventType * e.value := by
            simp [accumulatedWeight, List.filter_append, hm.1, hm.2]
          by_cases hex : ∃ e1 ∈ es, e1.userId = u ∧ e1.itemId = iid
          · rw [if_pos ⟨hiid, hex⟩, if_pos ⟨hiid, ⟨e, by simp, hm⟩⟩]
            simp [hacc]
          · rw [if_neg (fun hc => hex hc.2), if_pos ⟨hiid, ⟨e, by simp, hm⟩⟩]
            have hfil : es.filter (fun e1 => decide (e1.userId = u ∧ e1.itemId = iid)) = [] := by
              rw [List.filter_eq_nil_iff]
              intro a ha
              simp only [decide_eq_true_eq]
              exact fun hc => hex ⟨a, ha, hc⟩
            have hacc0 : accumulatedWeight es u iid = 0 := by
              unfold accumulatedWeight
              rw [hfil]
              simp
            rw [hacc, hacc0]
            simp
      · have hacc : accumulatedWeight (es ++ [e]) u iid = accumulatedWeight es u iid := by
          simp [accumulatedWeight, List.filter_append, hm]
        have hex : (∃ e1 ∈ es ++ [e], e1.userId = u ∧ e1.itemId = iid) ↔
            (∃ e1 ∈ es, e1.userId = u ∧ e1.itemId = iid) := by
          simp only [List.mem_append, List.mem_singleton]
          constructor
          · rintro ⟨e1, (he1 | rfl), hp⟩
            · exact ⟨e1, he1, hp⟩
            · exact absurd hp hm
          · rintro ⟨e1, he1, hp⟩; exact ⟨e1, Or.inl he1, hp⟩
        rcases hI : itemIndex e.itemId with _ | j
        · simp only [aggStep, hI]
          rw [ih, hacc]
          by_cases hc : (itemIndex iid).isSome ∧ ∃ e1 ∈ es, e1.userId = u ∧ e1.itemId = iid
          · rw [if_pos hc, if_pos ⟨hc.1, hex.mpr hc.2⟩]
          · rw [if_neg hc, if_neg (by rw [hex]; exact hc)]
        · have hkey : (u, iid) ≠ (e.userId, e.itemId) := by
            intro hh
            exact hm ⟨(Prod.mk.injEq _ _ _ _ ▸ hh).1.symm, (Prod.mk.injEq _ _ _ _ ▸ hh).2.symm⟩
          simp only [aggStep, hI]
          rw [lookupW_addWeight_ne _ _ hkey, ih, hacc]
          by_cases hc : (itemIndex iid).isSome ∧ ∃ e1 ∈ es, e1.userId = u ∧ e1.itemId = iid
          · rw [if_pos hc, if_pos ⟨hc.1, hex.mpr hc.2⟩]
          · rw [if_neg hc, if_neg (by rw [hex]; exact hc)]

theorem mem_users_aggregate (events : List Event) (u : String) :
    u ∈ (aggregateEvents events).users ↔
      ∃ e ∈ events, e.userId = u ∧ (itemIndex e.itemId).isSome := by
  induction events using List.reverseRecOn with
  | nil => simp [aggregateEvents]
  | append_singleton es e ih =>
      rw [aggregateEvents_concat]
      have hex : (∃ e1 ∈ es ++ [e], e1.userId = u ∧ (itemIndex e1.itemId).isSome) ↔
          ((∃ e1 ∈ es, e1.userId = u ∧ (itemIndex e1.itemId).isSome) ∨
            (e.userId = u ∧ (itemIndex e.itemId).isSome)) := by
        simp only [List.mem_append, List.mem_singleton]
        constructor
        · rintro ⟨e1, (he1 | rfl), hp⟩
          · exact Or.inl ⟨e1, he1, hp⟩
          · exact Or.inr hp
        · rintro (⟨e1, he1, hp⟩ | hp)
          · exact ⟨e1, Or.inl he1, hp⟩
          · exact ⟨e, Or.inr rfl, hp⟩
      rcases hI : itemIndex e.itemId with _ | j
      · simp only [aggStep, hI]
        rw [ih, hex]
        simp [hI]
      · simp only [aggStep, hI]
        rw [hex, ← ih]
        by_cases hm : e.userId ∈ (aggregateEvents es).users
        · simp only [if_pos hm]
          constructor
          · exact Or.inl
          · rintro (h | ⟨rfl, _⟩)
            · exact h
            · exact hm
        · simp only [if_neg hm, List.mem_append, List.mem_singleton, hI]
          constructor
          · rintro (h | rfl)
            · exact Or.inl h
            · exact Or.inr ⟨rfl, rfl⟩
          · rintro (h | ⟨rfl, _⟩)
            · exact Or.inl h
            · exact Or.inr rfl

theorem userRow_ne_nil_of_mem {inter : List ((String × String) × ℚ)}
    {u iid : String} {w : ℚ} {c : ℕ}
    (hmem : ((u, iid), w) ∈ inter) (hidx : itemIndex iid = some c) :
    userRow inter u ≠ [] := by
  have hcmem : (c, w) ∈ userRow inter u := by
    apply List.mem_filterMap.mpr
    exact ⟨((u, iid), w), hmem, by simp [hidx]⟩
  intro h
  rw [h] at hcmem
  simp at hcmem

theorem indexOfStr_isSome_iff (l : List String) (s : String) :
    (indexOfStr l s).isSome ↔ s ∈ l := by
  induction l with
  | nil => simp [indexOfStr]
  | cons v rest ih =>
      by_cases h : v = s
      · simp [indexOfStr, h]
      · simp [indexOfStr, h, ih, Ne.symm h]

theorem indexOfStr_getD {l : List String} {s : String} {p : ℕ}
    (h : indexOfStr l s = some p) (d : String) :
    p < l.length ∧ l.getD p d = s := by
  induction l generalizing p with
  | nil => simp [indexOfStr] at h
  | cons v rest ih =>
      by_cases hv : v = s
      · simp only [indexOfStr, if_pos hv, Option.some.injEq] at h
        subst h
        simpa using hv
      · simp only [indexOfStr, if_neg hv, Option.map_eq_some'] at h
        obtain ⟨q, hq, rfl⟩ := h
        have := ih hq
        simp only [List.length_cons, List.getD_cons_succ]
        exact ⟨by omega, this.2⟩

theorem getD_map_of_lt {α β : Type} (l : List α) (f : α → β) (i : ℕ) (d : β)
    (d0 : α) (h : i < l.length) :
    (l.map f).getD i d = f (l.getD i d0) := by
  rw [List.getD_eq_getElem _ _ (by simpa using h), List.getD_eq_getElem _ _ h]
  simp

/-! ## Helper lemmas: sorting and selection -/

theorem insertDesc_perm (x : ℚ) (l : List ℚ) : (insertDesc x l).Perm (x :: l) := by
  induction l with
  | nil => exact List.Perm.refl _
  | cons y ys ih =>
      by_cases h : y ≤ x
      · simp [insertDesc, h]
      · simp only [insertDesc, if_neg h]
        exact (ih.cons y).trans (List.Perm.swap x y ys)

theorem sortDesc_perm (l : List ℚ) : (sortDesc l).Perm l := by
  induction l with
  | nil => exact List.Perm.refl _
  | cons x xs ih =>
      simp only [sortDesc, List.foldr_cons]
      exact (insertDesc_perm x _).trans (ih.cons x)

theorem insertDesc_sorted {x : ℚ} {l : List ℚ} (h : l.Sorted (· ≥ ·)) :
    (insertDesc x l).Sorted (· ≥ ·) := by
  induction l with
  | nil => simp [insertDesc]
  | cons y ys ih =>
      by_cases hxy : y ≤ x
      · simp only [insertDesc, if_pos hxy]
        refine List.Pairwise.cons ?_ h
        intro b hb
        rcases List.mem_cons.mp hb with rfl | hb
        · exact hxy
        · exact le_trans (List.rel_of_sorted_cons h b hb) hxy
      · simp only [insertDesc, if_neg hxy]
        refine List.Pairwise.cons ?_ (ih h.of_cons)
        intro b hb
        rcases List.mem_cons.mp ((insertDesc_perm x ys).mem_iff.mp hb) with rfl | hb
        · exact le_of_not_le hxy
        · exact List.rel_of_sorted_cons h b hb

theorem sortDesc_sorted (l : List ℚ) : (sortDesc l).Sorted (· ≥ ·) := by
  induction l with
  | nil => simp [sortDesc]
  | cons x xs ih => exact insertDesc_sorted ih

theorem sorted_take_drop_le {l : List ℚ} (h : l.Sorted (· ≥ ·)) (k : ℕ)
    {a b : ℚ} (ha : a ∈ l.take k) (hb : b ∈ l.drop k) : b ≤ a := by
  have h2 : (l.take k ++ l.drop k).Pairwise (· ≥ ·) := by
    rw [List.take_append_drop]; exact h
  exact (List.pairwise_append.mp h2).2.2 a ha b hb

theorem map_getD_range (l : List ℚ) (d : ℚ) :
    (List.range l.length).map (fun i => l.getD i d) = l := by
  apply List.ext_getElem
  · simp
  · intro i h1 h2
    simp only [List.getElem_map, List.getElem_range]
    rw [List.getD_eq_getElem _ _ h2]

theorem sel_complement_perm {sel : List ℕ} {n : ℕ} (hnd : sel.Nodup)
    (hlt : ∀ i ∈ sel, i < n) :
    (sel ++ (List.range n).filter (fun i => decide (i ∉ sel))).Perm (List.range n) := by
  have hndf : ((List.range n).filter (fun i => decide (i ∉ sel))).Nodup :=
    (List.nodup_range n).filter _
  have hdisj : sel.Disjoint ((List.range n).filter (fun i => decide (i ∉ sel))) := by
    intro a ha haf
    have := (List.mem_filter.mp haf).2
    simp only [decide_eq_true_eq] at this
    exact this ha
  apply (List.perm_ext_iff_of_nodup (hnd.append hndf hdisj) (List.nodup_range n)).mpr
  intro a
  simp only [List.mem_append, List.mem_filter, List.mem_range, decide_eq_true_eq]
  constructor
  · rintro (ha | ⟨ha, _⟩)
    · exact hlt a ha
    · exact ha
  · intro ha
    by_cases hs : a ∈ sel
    · exact Or.inl hs
    · exact Or.inr ⟨ha, hs⟩

/-! ## Helper lemmas: sentinel overwrite and vector lengths -/

theorem applySentinel_length (fs : List ℚ) (w : List String) :
    (applySentinel fs w).length = fs.length := by
  induction w generalizing fs with
  | nil => rfl
  | cons wid rest ih =>
      rcases hI : itemIndex wid with _ | j
      · show (applySentinel _ rest).length = _
        simp only [hI]
        exact ih fs
      · show (applySentinel _ rest).length = _
        simp only [hI]
        rw [ih (fs.set j (-1)), List.length_set]

theorem applySentinel_getD_not_mem {fs : List ℚ} {w : List String} {i : ℕ}
    (h : i ∉ w.filterMap itemIndex) :
    (applySentinel fs w).getD i 0 = fs.getD i 0 := by
  induction w generalizing fs with
  | nil => rfl
  | cons wid rest ih =>
      rcases hI : itemIndex wid with _ | j
      · show (applySentinel _ rest).getD i 0 = _
        simp only [hI]
        exact ih (by simpa [List.filterMap_cons, hI] using h)
      · have hij : i ≠ j ∧ i ∉ rest.filterMap itemIndex := by
          simp only [List.filterMap_cons, hI, List.mem_cons, not_or] at h
          exact h
        show (applySentinel _ rest).getD i 0 = _
        simp only [hI]
        rw [ih hij.2]
        simp [List.getD, List.getElem?_set_ne (Ne.symm hij.1)]

theorem applySentinel_getD_mem {fs : List ℚ} {w : List String} {i : ℕ}
    (h : i ∈ w.filterMap itemIndex) (hlen : i < fs.length) :
    (applySentinel fs w).getD i 0 = -1 := by
  induction w generalizing fs with
  | nil => simp at h
  | cons wid rest ih =>
      rcases hI : itemIndex wid with _ | j
      · show (applySentinel _ rest).getD i 0 = _
        simp only [hI]
        exact ih (by simpa [List.filterMap_cons, hI] using h) hlen
      · show (applySentinel _ rest).getD i 0 = _
        simp only [hI]
        by_cases hm : i ∈ rest.filterMap itemIndex
        · exact ih hm (by simpa using hlen)
        · have hij : i = j := by
            simp only [List.filterMap_cons, hI, List.mem_cons] at h
            tauto
          subst hij
          rw [applySentinel_getD_not_mem hm]
          rw [List.getD_eq_getElem _ _ (by simpa using hlen)]
          simp [List.getElem_set_self]

theorem normalizeMinMax_length (xs : List ℚ) :
    (normalizeMinMax xs).length = xs.length := by
  by_cases h : listMax xs > listMin xs <;> simp [normalizeMinMax, h]

theorem rawCollabScores_length (itf : List (List ℚ)) (uf : List ℚ) :
    (rawCollabScores itf uf).length = itemIds.length := by
  simp [rawCollabScores]

theorem collabScoresNorm_length (itf : List (List ℚ)) (uf : List ℚ) :
    (collabScoresNorm itf uf).length = itemIds.length := by
  simp [collabScoresNorm, normalizeMinMax_length, rawCollabScores_length]

theorem contentScores_length (cm : ℕ → ℕ → ℚ) (w : List String) :
    (contentScores cm w).length = itemIds.length := by
  by_cases h : (w.filterMap itemIndex).length > 0 <;> simp [contentScores, h]

theorem zerosItems_length : zerosItems.length = itemIds.length := by
  simp [zerosItems]

theorem catalog_map_length : (CATALOG.map (fun it => it.rating / 10)).length = itemIds.length := by
  simp [itemIds]

theorem blendScores_length (cm : ℕ → ℕ → ℚ) (cfg : Config) (hi : Bool)
    (st : RecState) (u : String) :
    (blendScores cm cfg hi st u).1.length = itemIds.length := by
  unfold blendScores
  dsimp only
  split_ifs <;>
    simp [List.length_zipWith, collabScoresNorm_length, contentScores_length,
      zerosItems_length, itemIds]

theorem recommendScores_length (cm : ℕ → ℕ → ℚ) (cfg : Config) (hi : Bool)
    (st : RecState) (u : String) :
    (recommendScores cm cfg hi st u).1.length = itemIds.length := by
  unfold recommendScores
  dsimp only
  rw [applySentinel_length, blendScores_length]

/-! ## Helper lemmas: rounding -/

theorem roundHalfEven_bounds (z : ℚ) :
    (⌊z⌋ : ℤ) ≤ roundHalfEven z ∧ roundHalfEven z ≤ ⌊z⌋ + 1 := by
  unfold roundHalfEven
  split_ifs <;> omega

theorem roundHalfEven_mono {x y : ℚ} (h : x ≤ y) :
    roundHalfEven x ≤ roundHalfEven y := by
  by_cases hf : ⌊x⌋ = ⌊y⌋
  · unfold roundHalfEven
    rw [hf]
    have hr : x - ⌊y⌋ ≤ y - ⌊y⌋ := by
      have : ((⌊y⌋ : ℚ)) = ((⌊y⌋ : ℚ)) := rfl
      linarith
    split_ifs <;> first | omega | linarith
  · have hlt : ⌊x⌋ < ⌊y⌋ := lt_of_le_of_ne (Int.floor_le_floor h) hf
    have h1 := (roundHalfEven_bounds x).2
    have h2 := (roundHalfEven_bounds y).1
    omega

theorem round4_mono {x y : ℚ} (h : x ≤ y) : round4 x ≤ round4 y := by
  unfold round4
  have h1 : x * 10000 ≤ y * 10000 := by linarith
  have h2 : ((roundHalfEven (x * 10000) : ℤ) : ℚ) ≤ ((roundHalfEven (y * 10000) : ℤ) : ℚ) := by
    exact_mod_cast roundHalfEven_mono h1
  gcongr

/-! ## Helper lemmas: train and the watched set -/

theorem alookup_withIdx_isSome {β : Type} (f : ℕ → String → β) (i : ℕ)
    (l : List String) (u : String) :
    (alookup (withIdx f i l) u).isSome ↔ u ∈ l := by
  induction l generalizing i with
  | nil => simp [withIdx, alookup]
  | cons v rest ih =>
      by_cases h : v = u
      · simp [withIdx, alookup, h]
      · simp [withIdx, alookup, h, ih, Ne.symm h]

theorem train_userIndex (cfg : Config) (hi : Bool) (outcome : AlsOutcome)
    (events : List Event) :
    (train cfg hi outcome events).userIndex = (aggregateEvents events).users := rfl

theorem train_matrix (cfg : Config) (hi : Bool) (outcome : AlsOutcome)
    (events : List Event) :
    (train cfg hi outcome events).matrix =
      some ((aggregateEvents events).users.map (userRow (aggregateEvents events).interactions)) := rfl

theorem train_userFactors_mem {cfg : Config} {hi : Bool} {outcome : AlsOutcome}
    {events : List Event} {u : String}
    (h : (alookup (train cfg hi outcome events).userFactors u).isSome) :
    u ∈ (aggregateEvents events).users := by
  unfold train at h
  dsimp only at h
  by_cases hc : hi = true ∧ nnz (buildUserItemMatrix events).1 ≥ cfg.minInteractionsForCollab
  · rw [if_pos hc] at h
    rcases outcome with _ | ⟨userF, itemF⟩
    · simp [alookup] at h
    · exact (alookup_withIdx_isSome _ _ _ _).mp h
  · rw [if_neg hc] at h
    simp [alookup] at h

theorem train_row_ne_nil {cfg : Config} {hi : Bool} {outcome : AlsOutcome}
    {events : List Event} {u : String}
    (h : (alookup (train cfg hi outcome events).userFactors u).isSome) :
    ∃ p, indexOfStr (train cfg hi outcome events).userIndex u = some p ∧
      ((train cfg hi outcome events).matrix.getD []).getD p [] ≠ [] := by
  have hu : u ∈ (aggregateEvents events).users := train_userFactors_mem h
  obtain ⟨e, he, heu, hv⟩ := (mem_users_aggregate events u).mp hu
  obtain ⟨c, hc⟩ := Option.isSome_iff_exists.mp hv
  have hsome : lookupW (aggregateEvents events).interactions (u, e.itemId) =
      some (accumulatedWeight events u e.itemId) := by
    rw [lookupW_aggregate]
    exact if_pos ⟨hv, ⟨e, he, heu, rfl⟩⟩
  have hmem := lookupW_eq_some_mem hsome
  have hrowne := userRow_ne_nil_of_mem hmem hc
  obtain ⟨p, hp⟩ := Option.isSome_iff_exists.mp
    ((indexOfStr_isSome_iff (aggregateEvents events).users u).mpr hu)
  have hplen := (indexOfStr_getD hp "").1
  have hpval := (indexOfStr_getD hp "").2
  refine ⟨p, by rw [train_userIndex]; exact hp, ?_⟩
  rw [train_matrix]
  dsimp only [Option.getD_some]
  rw [getD_map_of_lt _ _ _ _ "" hplen, hpval]
  exact hrowne

theorem watched_ne_nil_of_uf {cfg : Config} {hi : Bool} {outcome : AlsOutcome}
    {events : List Event} {u : String}
    (h : (alookup (train cfg hi outcome events).userFactors u).isSome) :
    watchedOf (train cfg hi outcome events) u ≠ [] := by
  obtain ⟨p, hp, hne⟩ := train_row_ne_nil h
  rw [train_matrix] at hne
  dsimp only [Option.getD_some] at hne
  unfold watchedOf
  rw [hp, train_matrix]
  dsimp only
  intro hcon
  rw [List.dedup_eq_nil, List.map_eq_nil_iff] at hcon
  exact hne hcon

/-! ## Helper lemmas: the snapshot machine -/

theorem memAt_zero (pre post : Mem) : memAt pre post 0 = pre := by
  simp [memAt]

theorem memAt_ten (pre post : Mem) : memAt pre post 10 = post := by
  simp [memAt]

/-- Lock discipline and reader-local consistency: program counters are in
range, each lock flag mirrors whether its thread is inside the critical
section, the two critical sections exclude each other, and the reader's
locals so far were all read from one of the two snapshots (from `pre` while
the writer has not started, from `post` once it has finished). -/
def sysInv (pre post : Mem) (u : String) (s : SysState) : Prop :=
  s.wpc ≤ 10 ∧ s.rpc ≤ 7 ∧
  (s.lockW = true ↔ 1 ≤ s.wpc ∧ s.wpc ≤ 9) ∧
  (s.lockR = true ↔ 1 ≤ s.rpc ∧ s.rpc ≤ 6) ∧
  ¬((1 ≤ s.wpc ∧ s.wpc ≤ 9) ∧ (1 ≤ s.rpc ∧ s.rpc ≤ 6)) ∧
  (s.rpc = 0 → s.locals = emptyLocals) ∧
  (1 ≤ s.rpc →
    (s.locals = localsUpTo pre u s.rpc ∧ (s.rpc ≤ 6 → s.wpc = 0)) ∨
    (s.locals = localsUpTo post u s.rpc ∧ (s.rpc ≤ 6 → s.wpc = 10)))

theorem localsUpTo_one (m : Mem) (u : String) : localsUpTo m u 1 = emptyLocals := by
  simp [localsUpTo, emptyLocals]

theorem localsUpTo_seven (m : Mem) (u : String) : localsUpTo m u 7 = localsUpTo m u 6 := by
  simp [localsUpTo]

theorem setLocal_localsUpTo (m : Mem) (u : String) {rpc : ℕ}
    (h1 : 1 ≤ rpc) (h5 : rpc ≤ 5) :
    setLocal rpc m u (localsUpTo m u rpc) = localsUpTo m u (rpc + 1) := by
  interval_cases rpc <;> simp [setLocal, localsUpTo]

theorem sysInv_init (pre post : Mem) (u : String) : sysInv pre post u initSys := by
  unfold sysInv initSys
  dsimp only
  refine ⟨by omega, by omega, by simp, by simp, ?_, fun _ => rfl, ?_⟩
  · rintro ⟨⟨hw, _⟩, _⟩
    omega
  · intro hc
    omega

theorem wstep_inv {pre post : Mem} {u : String} {s : SysState}
    (h : sysInv pre post u s) : sysInv pre post u (wstep s) := by
  obtain ⟨h1, h2, h3, h4, h5, h6, h7⟩ := h
  unfold wstep
  split_ifs with c1 c2 c3 c4
  · exact ⟨h1, h2, h3, h4, h5, h6, h7⟩
  · -- acquire: wpc 0 -> 1
    have hnr : ¬(1 ≤ s.rpc ∧ s.rpc ≤ 6) := fun hr => c2 (h4.mpr hr)
    unfold sysInv
    dsimp only
    refine ⟨by omega, h2, by simp, h4, ?_, h6, ?_⟩
    · rintro ⟨_, hr⟩
      exact hnr hr
    · intro hr1
      rcases h7 hr1 with ⟨ha, _⟩ | ⟨ha, _⟩
      · exact Or.inl ⟨ha, fun hc => absurd ⟨hr1, hc⟩ hnr⟩
      · exact Or.inr ⟨ha, fun hc => absurd ⟨hr1, hc⟩ hnr⟩
  · -- write step: wpc in [1,8]
    have hw1 : 1 ≤ s.wpc := by omega
    have hnr : ¬(1 ≤ s.rpc ∧ s.rpc ≤ 6) := fun hr => h5 ⟨⟨hw1, by omega⟩, hr⟩
    unfold sysInv
    dsimp only
    refine ⟨by omega, h2, ?_, h4, ?_, h6, ?_⟩
    · constructor
      · intro _; exact ⟨by omega, by omega⟩
      · intro _; exact h3.mpr ⟨hw1, by omega⟩
    · rintro ⟨_, hr⟩
      exact hnr hr
    · intro hr1
      rcases h7 hr1 with ⟨ha, _⟩ | ⟨ha, _⟩
      · exact Or.inl ⟨ha, fun hc => absurd ⟨hr1, hc⟩ hnr⟩
      · exact Or.inr ⟨ha, fun hc => absurd ⟨hr1, hc⟩ hnr⟩
  · -- release: wpc 9 -> 10
    have hnr : ¬(1 ≤ s.rpc ∧ s.rpc ≤ 6) := fun hr => h5 ⟨⟨by omega, by omega⟩, hr⟩
    unfold sysInv
    dsimp only
    refine ⟨by omega, h2, by simp, h4, ?_, h6, ?_⟩
    · rintro ⟨⟨_, hw9⟩, _⟩
      omega
    · intro hr1
      rcases h7 hr1 with ⟨ha, _⟩ | ⟨ha, _⟩
      · exact Or.inl ⟨ha, fun hc => absurd ⟨hr1, hc⟩ hnr⟩
      · exact Or.inr ⟨ha, fun hc => absurd ⟨hr1, hc⟩ hnr⟩
  · exact ⟨h1, h2, h3, h4, h5, h6, h7⟩

theorem rstep_inv {pre post : Mem} {u : String} {s : SysState}
    (h : sysInv pre post u s) : sysInv pre post u (rstep pre post u s) := by
  obtain ⟨h1, h2, h3, h4, h5, h6, h7⟩ := h
  unfold rstep
  split_ifs with c1 c2 c3 c4
  · exact ⟨h1, h2, h3, h4, h5, h6, h7⟩
  · -- acquire: rpc 0 -> 1
    have hnw : ¬(1 ≤ s.wpc ∧ s.wpc ≤ 9) := fun hw => c2 (h3.mpr hw)
    have hw0 : s.wpc = 0 ∨ s.wpc = 10 := by
      by_cases hq : 1 ≤ s.wpc
      · by_cases hq2 : s.wpc ≤ 9
        · exact absurd ⟨hq, hq2⟩ hnw
        · right; omega
      · left; omega
    unfold sysInv
    dsimp only
    refine ⟨h1, by omega, h3, by simp, ?_, by intro hq; omega, ?_⟩
    · rintro ⟨hw, _⟩
      exact hnw hw
    · intro _
      rcases hw0 with hw | hw
      · exact Or.inl ⟨by rw [h6 c1, localsUpTo_one], fun _ => hw⟩
      · exact Or.inr ⟨by rw [h6 c1, localsUpTo_one], fun _ => hw⟩
  · -- read step: rpc in [1,5]
    have hr1 : 1 ≤ s.rpc := by omega
    have hlr : s.lockR = true := h4.mpr ⟨hr1, by omega⟩
    unfold sysInv
    dsimp only
    rcases h7 hr1 with ⟨ha, hb⟩ | ⟨ha, hb⟩
    · have hw := hb (by omega)
      refine ⟨h1, by omega, h3, ?_, ?_, by intro hq; omega, ?_⟩
      · constructor
        · intro _; exact ⟨by omega, by omega⟩
        · intro _; exact hlr
      · rintro ⟨⟨hwi, _⟩, _⟩
        omega
      · intro _
        refine Or.inl ⟨?_, fun _ => hw⟩
        rw [hw, memAt_zero, ha]
        exact setLocal_localsUpTo pre u hr1 c3
    · have hw := hb (by omega)
      refine ⟨h1, by omega, h3, ?_, ?_, by intro hq; omega, ?_⟩
      · constructor
        · intro _; exact ⟨by omega, by omega⟩
        · intro _; exact hlr
      · rintro ⟨⟨hwi, hwi2⟩, _⟩
        omega
      · intro _
        refine Or.inr ⟨?_, fun _ => hw⟩
        rw [hw, memAt_ten, ha]
        exact setLocal_localsUpTo post u hr1 c3
  · -- release: rpc 6 -> 7
    have hr1 : 1 ≤ s.rpc := by omega
    unfold sysInv
    dsimp only
    rcases h7 hr1 with ⟨ha, _⟩ | ⟨ha, _⟩
    · refine ⟨h1, by omega, h3, by simp, ?_, by intro hq; omega, ?_⟩
      · rintro ⟨_, ⟨_, hri⟩⟩
        omega
      · intro _
        refine Or.inl ⟨?_, fun hq => absurd hq (by omega)⟩
        rw [ha, c4, localsUpTo_seven]
    · refine ⟨h1, by omega, h3, by simp, ?_, by intro hq; omega, ?_⟩
      · rintro ⟨_, ⟨_, hri⟩⟩
        omega
      · intro _
        refine Or.inr ⟨?_, fun hq => absurd hq (by omega)⟩
        rw [ha, c4, localsUpTo_seven]
  · exact ⟨h1, h2, h3, h4, h5, h6, h7⟩

theorem runSched_inv (pre post : Mem) (u : String) (sched : List Bool)
    {s : SysState} (h : sysInv pre post u s) :
    sysInv pre post u (runSched pre post u sched s) := by
  induction sched generalizing s with
  | nil => exact h
  | cons b bs ih =>
      simp only [runSched, List.foldl_cons]
      cases b
      · simpa [runSched] using ih (rstep_inv h)
      · simpa [runSched] using ih (wstep_inv h)

/-- The complete set of locals `recommend` holds after its snapshot block,
all read from one memory state `m`. -/
def snapshotLocals (m : Mem) (u : String) : ReaderLocals :=
  ⟨some (alookup m.userFactors u), some m.itemFactors,
   some (indexOfStr m.userIndex u), some m.matrix, some m.userIndex⟩

theorem localsUpTo_snapshot (m : Mem) (u : String) :
    localsUpTo m u 7 = snapshotLocals m u := by
  simp [localsUpTo, snapshotLocals]

/-! ## Helper lemmas: miscellaneous -/

theorem isEmpty_false_of_ne_nil {α : Type} {l : List α} (h : l ≠ []) :
    l.isEmpty = false := by
  cases l
  · exact absurd rfl h
  · rfl

theorem itemIndex_getD_self : ∀ i < itemIds.length, itemIndex (itemIds.getD i "") = some i := by
  decide

theorem aggregateEvents_filter (events : List Event) :
    aggregateEvents (events.filter (fun e => (itemIndex e.itemId).isSome)) =
      aggregateEvents events := by
  induction events using List.reverseRecOn with
  | nil => rfl
  | append_singleton es e ih =>
      rw [List.filter_append, aggregateEvents_concat]
      rcases hI : itemIndex e.itemId with _ | j
      · have hf : [e].filter (fun e1 => (itemIndex e1.itemId).isSome) = [] := by
          simp [hI]
        rw [hf, List.append_nil, ih]
        simp [aggStep, hI]
      · have hf : [e].filter (fun e1 => (itemIndex e1.itemId).isSome) = [e] := by
          simp [hI]
        rw [hf, aggregateEvents_concat, ih]

theorem foldl_min_le_init (ys : List ℚ) (a : ℚ) : ys.foldl min a ≤ a := by
  induction ys generalizing a with
  | nil => exact le_refl a
  | cons y ys ih =>
      calc (y :: ys).foldl min a = ys.foldl min (min a y) := by rfl
        _ ≤ min a y := ih (min a y)
        _ ≤ a := min_le_left a y

theorem foldl_min_le_mem {ys : List ℚ} {x : ℚ} (h : x ∈ ys) (a : ℚ) :
    ys.foldl min a ≤ x := by
  induction ys generalizing a with
  | nil => simp at h
  | cons y ys ih =>
      rcases List.mem_cons.mp h with rfl | hx
      · calc (x :: ys).foldl min a = ys.foldl min (min a x) := by rfl
          _ ≤ min a x := foldl_min_le_init ys (min a x)
          _ ≤ x := min_le_right a x
      · exact ih hx (min a y)

theorem init_le_foldl_max (ys : List ℚ) (a : ℚ) : a ≤ ys.foldl max a := by
  induction ys generalizing a with
  | nil => exact le_refl a
  | cons y ys ih =>
      calc a ≤ max a y := le_max_left a y
        _ ≤ ys.foldl max (max a y) := ih (max a y)
        _ = (y :: ys).foldl max a := by rfl

theorem mem_le_foldl_max {ys : List ℚ} {x : ℚ} (h : x ∈ ys) (a : ℚ) :
    x ≤ ys.foldl max a := by
  induction ys generalizing a with
  | nil => simp at h
  | cons y ys ih =>
      rcases List.mem_cons.mp h with rfl | hx
      · calc x ≤ max a x := le_max_right a x
          _ ≤ ys.foldl max (max a x) := init_le_foldl_max ys (max a x)
          _ = (x :: ys).foldl max a := by rfl
      · exact ih hx (max a y)

theorem listMin_le_mem {xs : List ℚ} {x : ℚ} (h : x ∈ xs) : listMin xs ≤ x := by
  cases xs with
  | nil => simp at h
  | cons y ys =>
      rcases List.mem_cons.mp h with rfl | hx
      · exact foldl_min_le_init ys x
      · exact foldl_min_le_mem hx y

theorem mem_le_listMax {xs : List ℚ} {x : ℚ} (h : x ∈ xs) : x ≤ listMax xs := by
  cases xs with
  | nil => simp at h
  | cons y ys =>
      rcases List.mem_cons.mp h with rfl | hx
      · exact init_le_foldl_max ys x
      · exact mem_le_foldl_max hx y

theorem recommendScores_fst (cm : ℕ → ℕ → ℚ) (cfg : Config) (hi : Bool)
    (st : RecState) (u : String) :
    (recommendScores cm cfg hi st u).1 =
      applySentinel (blendScores cm cfg hi st u).1 (watchedOf st u) := rfl

theorem recommendScores_snd (cm : ℕ → ℕ → ℚ) (cfg : Config) (hi : Bool)
    (st : RecState) (u : String) :
    (recommendScores cm cfg hi st u).2 = (blendScores cm cfg hi st u).2 := rfl

theorem selValues_complement {fs : List ℚ} {k : ℕ} {sel : List ℕ}
    (hnd : sel.Nodup) (hbound : ∀ i ∈ sel, i < fs.length)
    (hperm : (selValues fs sel).Perm ((sortDesc fs).take k)) :
    (selValues fs ((List.range fs.length).filter (fun i => decide (i ∉ sel)))).Perm
      ((sortDesc fs).drop k) := by
  have hbig : (selValues fs sel ++
      selValues fs ((List.range fs.length).filter (fun i => decide (i ∉ sel)))).Perm fs := by
    have h1 := (sel_complement_perm hnd hbound).map (fun i => fs.getD i 0)
    rw [List.map_append] at h1
    have h2 : (List.range fs.length).map (fun i => fs.getD i 0) = fs := map_getD_range fs 0
    rw [h2] at h1
    exact h1
  have h2 : fs.Perm ((sortDesc fs).take k ++ (sortDesc fs).drop k) := by
    rw [List.take_append_drop]
    exact (sortDesc_perm fs).symm
  have h3 := hbig.trans h2
  have h4 : (↑(selValues fs sel) : Multiset ℚ) +
      ↑(selValues fs ((List.range fs.length).filter (fun i => decide (i ∉ sel)))) =
      (↑((sortDesc fs).take k) : Multiset ℚ) + ↑((sortDesc fs).drop k) := by
    rw [Multiset.coe_add, Multiset.coe_add]
    exact Multiset.coe_eq_coe.mpr h3
  rw [Multiset.coe_eq_coe.mpr hperm] at h4
  exact Multiset.coe_eq_coe.mp (add_left_cancel h4)

/-! ## Concrete inputs used by witnesses and counterexamples -/

/-- A `view_complete` event with value 1. -/
def evC (uid iid : String) : Event := ⟨uid, iid, "view_complete", 1⟩

/-- Five valid events of one user on five catalog items (enough stored
interactions for the default collaborative threshold). -/
def sampleEvents : List Event :=
  [evC "u1" "m001", evC "u1" "m002", evC "u1" "m003", evC "u1" "m004", evC "u1" "m005"]

/-- A successful ALS outcome whose factors make every item score equal:
one user-factor row `[1]` and fifty item-factor rows `[1]`. -/
def ceOutcome : AlsOutcome := .success [[1]] (List.replicate 50 [1])

/-- State trained from `sampleEvents` with the degenerate ALS outcome. -/
def ceState : RecState := train defaultConfig true ceOutcome sampleEvents

/-- State trained from no events at all (fit gated off: zero interactions). -/
def trendState : RecState := train defaultConfig true .failure []

/-- State with one watched item and no collaborative model. -/
def contentState : RecState := train defaultConfig true .failure [evC "u1" "m001"]

/-- A content matrix that is identically zero (the claims hold for every
content matrix; witnesses fix this concrete one). -/
def cmZero : ℕ → ℕ → ℚ := fun _ _ => 0

/-- Fold a list of ingest calls, keeping only the engine state. -/
def runIngest (threshold : ℕ) (st : EngineState) (es : List Event) : EngineState :=
  es.foldl (fun s e => (ingestEvent threshold s e).2.1) st

/-! ## C5 -/

/-- C5: `train` publishes a collaborative model exactly when the library is
available, the stored-interaction count meets the configured minimum and the
ALS fit did not raise; a fit failure (caught exception) yields the same
no-model result as insufficient data; and in every case - failure included -
the new state is still published: the freshly built matrix, user index and
interaction count are installed even when `latent_factor_model` is `None`. -/
theorem C5_train_gating (cfg : Config) (hi : Bool) (outcome : AlsOutcome)
    (events : List Event) :
    ((train cfg hi outcome events).itemFactors ≠ none ↔
      (hi = true ∧ nnz (buildUserItemMatrix events).1 ≥ cfg.minInteractionsForCollab ∧
        ∃ userF itemF, outcome = .success userF itemF)) ∧
    (outcome = .failure → (train cfg hi outcome events).itemFactors = none ∧
      (train cfg hi outcome events).userFactors = []) ∧
    ((train cfg hi outcome events).matrix = some (buildUserItemMatrix events).1 ∧
     (train cfg hi outcome events).userIndex = (buildUserItemMatrix events).2 ∧
     (train cfg hi outcome events).nInteractions = nnz (buildUserItemMatrix events).1) := by
  refine ⟨?_, ?_, rfl, rfl, rfl⟩
  · unfold train
    dsimp only
    by_cases hc : hi = true ∧ nnz (buildUserItemMatrix events).1 ≥ cfg.minInteractionsForCollab
    · rw [if_pos hc]
      rcases outcome with _ | ⟨userF, itemF⟩
      · simp [hc]
      · simp [hc]
    · rw [if_neg hc]
      constructor
      · intro hcon
        exact absurd rfl hcon
      · rintro ⟨h1, h2, _⟩
        exact absurd ⟨h1, h2⟩ hc
  · intro hout
    subst hout
    unfold train
    dsimp only
    by_cases hc : hi = true ∧ nnz (buildUserItemMatrix events).1 ≥ cfg.minInteractionsForCollab
    · rw [if_pos hc]
      exact ⟨rfl, rfl⟩
    · rw [if_neg hc]
      exact ⟨rfl, rfl⟩

/-- Witness for C5 at a failing fit over enough data: the published state has
no collaborative model but the matrix is still installed. -/
theorem C5_witness :
    (train defaultConfig true .failure sampleEvents).itemFactors = none ∧
    (train defaultConfig true .failure sampleEvents).matrix ≠ none := by
  have h := C5_train_gating defaultConfig true .failure sampleEvents
  exact ⟨(h.2.1 rfl).1, by rw [h.2.2.1]; simp⟩

/-! ## C7 -/

/-- Events whose item id misses the catalog contribute nothing. -/
def mixedEvents : List Event :=
  [evC "u1" "m001", ⟨"u1", "zzz", "view_complete", 1⟩, ⟨"u1", "m001", "rating", 2⟩]

/-- C7: aggregation silently skips events with unknown item ids (dropping
them leaves the built matrix unchanged), accumulates
`type_multiplier × value` additively per `(user, item)` pair, uses
multipliers 4 / 3 / 1 / 0.5 with default 1 for unknown types, and an event
list with no valid event yields the empty matrix with zero users. -/
theorem C7_aggregation (events : List Event) (u iid : String) :
    (buildUserItemMatrix (events.filter (fun e => (itemIndex e.itemId).isSome)) =
      buildUserItemMatrix events) ∧
    (lookupW (aggregateEvents events).interactions (u, iid) =
      if (itemIndex iid).isSome ∧ ∃ e ∈ events, e.userId = u ∧ e.itemId = iid
      then some (accumulatedWeight events u iid) else none) ∧
    (eventWeightMultiplier "view_complete" = 4 ∧ eventWeightMultiplier "rating" = 3 ∧
     eventWeightMultiplier "view_start" = 1 ∧ eventWeightMultiplier "search" = 1/2) ∧
    (∀ t, t ≠ "view_complete" → t ≠ "rating" → t ≠ "view_start" → t ≠ "search" →
      eventWeightMultiplier t = 1) ∧
    ((∀ e ∈ events, itemIndex e.itemId = none) → buildUserItemMatrix events = ([], [])) ∧
    (∀ p, indexOfStr (aggregateEvents events).users u = some p →
      ((buildUserItemMatrix events).1).getD p [] =
        userRow (aggregateEvents events).interactions u) := by
  refine ⟨?_, lookupW_aggregate events u iid, ⟨rfl, rfl, rfl, rfl⟩, ?_, ?_, ?_⟩
  · unfold buildUserItemMatrix
    rw [aggregateEvents_filter]
  · intro t h1 h2 h3 h4
    simp [eventWeightMultiplier, h1, h2, h3, h4]
  · intro hall
    have hf : events.filter (fun e => (itemIndex e.itemId).isSome) = [] := by
      rw [List.filter_eq_nil_iff]
      intro e he
      simp [hall e he]
    have := aggregateEvents_filter events
    rw [hf] at this
    unfold buildUserItemMatrix
    rw [← this]
    rfl
  · intro p hp
    unfold buildUserItemMatrix
    dsimp only
    rw [getD_map_of_lt _ _ _ _ "" (indexOfStr_getD hp "").1, (indexOfStr_getD hp "").2]

/-- Witness for C7: a catalog-miss event is skipped, the two valid events on
`(u1, m001)` (a complete view and a 2-star rating) add up to
`4·1 + 3·2 = 10`, an unknown event type gets multiplier 1, and a list with
only invalid events builds the zero-user matrix. -/
theorem C7_witness :
    lookupW (aggregateEvents mixedEvents).interactions ("u1", "m001") = some 10 ∧
    eventWeightMultiplier "mystery" = 1 ∧
    buildUserItemMatrix [⟨"u1", "zzz", "view_complete", 1⟩] = ([], []) := by
  refine ⟨?_, ?_, ?_⟩
  · rw [(C7_aggregation mixedEvents "u1" "m001").2.1,
      if_pos (show (itemIndex "m001").isSome ∧
        ∃ e ∈ mixedEvents, e.userId = "u1" ∧ e.itemId = "m001" by decide)]
    have hfil : mixedEvents.filter
        (fun e => decide (e.userId = "u1" ∧ e.itemId = "m001")) =
        [evC "u1" "m001", ⟨"u1", "m001", "rating", 2⟩] := by rfl
    unfold accumulatedWeight
    rw [hfil]
    show some (4 * 1 + (3 * 2 + 0)) = some 10
    norm_num
  · exact (C7_aggregation mixedEvents "u1" "m001").2.2.2.1 "mystery"
      (by decide) (by decide) (by decide) (by decide)
  · exact (C7_aggregation [⟨"u1", "zzz", "view_complete", 1⟩] "u1" "m001").2.2.2.2.1
      (by decide)

/-! ## C9 -/

/-- C9: `ingest_event` rejects exactly the events whose item id is unknown or
whose event type is unrecognized, reports which of the two reasons applied
(HTTP 404 vs 422), and a rejected call leaves the engine state untouched:
nothing is buffered, the event counter is unchanged, and no retrain thread is
spawned. -/
theorem C9_ingest_validation (threshold : ℕ) (st : EngineState) (e : Event) :
    ((ingestEvent threshold st e).1 = .rejectedUnknownItem ↔ itemIndex e.itemId = none) ∧
    ((ingestEvent threshold st e).1 = .rejectedUnknownType ↔
      (itemIndex e.itemId).isSome ∧ e.eventType ∉ allowedEventTypes) ∧
    ((ingestEvent threshold st e).1 ≠ .accepted →
      (ingestEvent threshold st e).2.1 = st ∧ (ingestEvent threshold st e).2.2 = false) ∧
    ((ingestEvent threshold st e).1 = .accepted ↔
      (itemIndex e.itemId).isSome ∧ e.eventType ∈ allowedEventTypes) := by
  unfold ingestEvent
  by_cases h1 : (itemIndex e.itemId).isNone
  · have h1s : ¬ (itemIndex e.itemId).isSome := by
      simp [Option.isNone_iff_eq_none.mp h1]
    rw [if_pos h1]
    refine ⟨?_, ?_, fun _ => ⟨rfl, rfl⟩, ?_⟩
    · simp [Option.isNone_iff_eq_none.mp h1]
    · simp [h1s]
    · simp [h1s]
  · have h1s : (itemIndex e.itemId).isSome := by
      rcases ho : itemIndex e.itemId with _ | v
      · rw [ho] at h1; exact absurd rfl h1
      · rfl
    rw [if_neg h1]
    by_cases h2 : e.eventType ∉ allowedEventTypes
    · rw [if_pos h2]
      refine ⟨?_, ?_, fun _ => ⟨rfl, rfl⟩, ?_⟩
      · constructor
        · intro hc; exact absurd hc (by simp)
        · intro hc
          rw [hc] at h1s
          simp at h1s
      · simp [h1s, h2]
      · simp [h2]
    · rw [if_neg h2]
      dsimp only
      refine ⟨?_, ?_, fun hc => absurd rfl hc, ?_⟩
      · constructor
        · intro hc; exact absurd hc (by simp)
        · intro hc
          rw [hc] at h1s
          simp at h1s
      · simp [h2]
      · simp [h1s, not_not.mp h2]

/-- Witness for C9: an event on an unknown item is rejected with the
item-not-found reason and changes nothing; an unknown event type is rejected
with the type reason. -/
theorem C9_witness :
    (ingestEvent 50 ⟨[], 3⟩ ⟨"u1", "zzz", "view_complete", 1⟩).1 = .rejectedUnknownItem ∧
    (ingestEvent 50 ⟨[], 3⟩ ⟨"u1", "zzz", "view_complete", 1⟩).2.1 = ⟨[], 3⟩ ∧
    (ingestEvent 50 ⟨[], 3⟩ ⟨"u1", "zzz", "view_complete", 1⟩).2.2 = false ∧
    (ingestEvent 50 ⟨[], 3⟩ ⟨"u1", "m001", "like", 1⟩).1 = .rejectedUnknownType := by
  have h1 := C9_ingest_validation 50 ⟨[], 3⟩ ⟨"u1", "zzz", "view_complete", 1⟩
  have h2 := C9_ingest_validation 50 ⟨[], 3⟩ ⟨"u1", "m001", "like", 1⟩
  have hr := h1.1.mpr (by decide)
  refine ⟨hr, ?_, ?_, h2.2.1.mpr (by decide)⟩
  · exact (h1.2.2.1 (by rw [hr]; decide)).1
  · exact (h1.2.2.1 (by rw [hr]; decide)).2

/-! ## C1 -/

/-- C1 (amended): when the incremented counter reaches the threshold the
triggering ingest call spawns exactly one background retrain thread, but the
counter is reset to zero only at the END of `_retrain_background`
(completion), not at trigger time: immediately after the triggering ingest
call returns, the counter equals the threshold value it just reached. -/
theorem C1_retrain_counter (threshold : ℕ) (st : EngineState) (e : Event)
    (cfg : Config) (hi : Bool) (outcome : AlsOutcome) :
    ((ingestEvent threshold st e).2.2 = true ↔
      (ingestEvent threshold st e).1 = .accepted ∧
        (ingestEvent threshold st e).2.1.eventCount ≥ threshold) ∧
    ((ingestEvent threshold st e).1 = .accepted →
      (ingestEvent threshold st e).2.1.eventCount = st.eventCount + 1) ∧
    ((retrainBackground cfg hi outcome st).1.eventCount = 0) := by
  unfold ingestEvent
  by_cases h1 : (itemIndex e.itemId).isNone
  · rw [if_pos h1]
    refine ⟨by simp, by simp, rfl⟩
  · rw [if_neg h1]
    by_cases h2 : e.eventType ∉ allowedEventTypes
    · rw [if_pos h2]
      refine ⟨by simp, by simp, rfl⟩
    · rw [if_neg h2]
      unfold maybeTriggerRetrain
      refine ⟨by simp, by simp, rfl⟩

/-- Counterexample to C1 as stated: with the default threshold 50, after the
50th accepted ingest (the triggering call) returns, the counter reads 50,
not 0 - the reset only happens when the background retrain completes. -/
theorem C1_counterexample :
    (runIngest 50 ⟨[], 0⟩ (List.replicate 49 (evC "u1" "m001"))).eventCount = 49 ∧
    (ingestEvent 50 (runIngest 50 ⟨[], 0⟩ (List.replicate 49 (evC "u1" "m001")))
      (evC "u1" "m001")).2.2 = true ∧
    (ingestEvent 50 (runIngest 50 ⟨[], 0⟩ (List.replicate 49 (evC "u1" "m001")))
      (evC "u1" "m001")).2.1.eventCount = 50 ∧
    ¬ (ingestEvent 50 (runIngest 50 ⟨[], 0⟩ (List.replicate 49 (evC "u1" "m001")))
      (evC "u1" "m001")).2.1.eventCount = 0 := by
  decide

/-- Witness for C1 (amended): a triggering call at the threshold boundary
spawns the retrain and leaves the counter at the threshold, and the
background retrain resets it to zero at completion. -/
theorem C1_witness :
    (ingestEvent 50 ⟨[], 49⟩ (evC "u1" "m001")).2.1.eventCount = 50 ∧
    (ingestEvent 50 ⟨[], 49⟩ (evC "u1" "m001")).2.2 = true ∧
    (retrainBackground defaultConfig true .failure ⟨[], 50⟩).1.eventCount = 0 := by
  have h := C1_retrain_counter 50 ⟨[], 49⟩ (evC "u1" "m001") defaultConfig true .failure
  refine ⟨?_, ?_, h.2.2⟩
  · exact h.2.1 (by decide)
  · exact h.1.mpr ⟨by decide, by decide⟩

/-! ## Helper lemmas: blend branches -/

theorem blendScores_hybrid {cm : ℕ → ℕ → ℚ} {cfg : Config} {hi : Bool}
    {st : RecState} {u : String} (h1 : hi = true)
    (h2 : (alookup st.userFactors u).isSome = true)
    (h3 : st.itemFactors.isSome = true)
    (h4 : (watchedOf st u).length ≥ cfg.minInteractionsForCollab)
    (h5 : watchedOf st u ≠ []) :
    blendScores cm cfg hi st u =
      (List.zipWith (fun a b => cfg.collabWeight * a + (1 - cfg.collabWeight) * b)
        (collabScoresNorm (st.itemFactors.getD []) ((alookup st.userFactors u).getD []))
        (contentScores cm (watchedOf st u)), "hybrid") := by
  have hb : (hi && (alookup st.userFactors u).isSome && st.itemFactors.isSome &&
      decide ((watchedOf st u).length ≥ cfg.minInteractionsForCollab)) = true := by
    rw [h1, h2, h3]
    simp [h4]
  have h6 := isEmpty_false_of_ne_nil h5
  simp only [blendScores, hb, h6]
  simp

theorem blendScores_noCollab_content {cm : ℕ → ℕ → ℚ} {cfg : Config} {hi : Bool}
    {st : RecState} {u : String}
    (hb : (hi && (alookup st.userFactors u).isSome && st.itemFactors.isSome &&
      decide ((watchedOf st u).length ≥ cfg.minInteractionsForCollab)) = false)
    (h5 : watchedOf st u ≠ []) :
    blendScores cm cfg hi st u = (contentScores cm (watchedOf st u), "content") := by
  have h6 := isEmpty_false_of_ne_nil h5
  simp only [blendScores, hb, h6]
  simp

theorem blendScores_noCollab_trending {cm : ℕ → ℕ → ℚ} {cfg : Config} {hi : Bool}
    {st : RecState} {u : String}
    (hb : (hi && (alookup st.userFactors u).isSome && st.itemFactors.isSome &&
      decide ((watchedOf st u).length ≥ cfg.minInteractionsForCollab)) = false)
    (h5 : watchedOf st u = []) :
    blendScores cm cfg hi st u = (CATALOG.map (fun it => it.rating / 10), "trending") := by
  simp only [blendScores, hb]
  rw [h5]
  simp

theorem blendScores_snd_hybrid {cm : ℕ → ℕ → ℚ} {cfg : Config} {hi : Bool}
    {st : RecState} {u : String}
    (hb : (hi && (alookup st.userFactors u).isSome && st.itemFactors.isSome &&
      decide ((watchedOf st u).length ≥ cfg.minInteractionsForCollab)) = true)
    (h5 : watchedOf st u ≠ []) :
    (blendScores cm cfg hi st u).2 = "hybrid" := by
  have h6 := isEmpty_false_of_ne_nil h5
  simp only [blendScores, hb, h6]
  simp

/-! ## C3 -/

/-- C3: the blend mode and `source` label of `recommend`, for every state
published by `train`, follow the spec's priority: (a) collaborative model and
user factor available, watched count at least the minimum and watched
nonempty gives the weighted blend with `source = hybrid`; (b) collaborative
available with an empty watched set gives `source = collaborative` (for
trained states this branch can never fire: a user factor implies a nonempty
watched set, so the implication holds vacuously - see C10); (c) collaborative
unavailable with nonempty watched gives pure content scores with
`source = content`; (d) no history at all gives `catalog_rating / 10` with
`source = trending`. -/
theorem C3_blend_priority (cm : ℕ → ℕ → ℚ) (cfg : Config) (hi : Bool)
    (outcome : AlsOutcome) (events : List Event) (u : String) (st : RecState)
    (hst : st = train cfg hi outcome events) :
    (hi = true → (alookup st.userFactors u).isSome = true →
      st.itemFactors.isSome = true →
      (watchedOf st u).length ≥ cfg.minInteractionsForCollab →
      watchedOf st u ≠ [] →
      blendScores cm cfg hi st u =
        (List.zipWith (fun a b => cfg.collabWeight * a + (1 - cfg.collabWeight) * b)
          (collabScoresNorm (st.itemFactors.getD []) ((alookup st.userFactors u).getD []))
          (contentScores cm (watchedOf st u)), "hybrid")) ∧
    ((alookup st.userFactors u).isSome = true → st.itemFactors.isSome = true →
      watchedOf st u = [] → (blendScores cm cfg hi st u).2 = "collaborative") ∧
    (¬(hi = true ∧ (alookup st.userFactors u).isSome = true ∧
        st.itemFactors.isSome = true) →
      watchedOf st u ≠ [] →
      blendScores cm cfg hi st u = (contentScores cm (watchedOf st u), "content")) ∧
    (alookup st.userFactors u = none → watchedOf st u = [] →
      blendScores cm cfg hi st u = (CATALOG.map (fun it => it.rating / 10), "trending")) := by
  refine ⟨fun h1 h2 h3 h4 h5 => blendScores_hybrid h1 h2 h3 h4 h5, ?_, ?_, ?_⟩
  · intro h2 _ h5
    subst hst
    exact absurd h5 (watched_ne_nil_of_uf h2)
  · intro hno h5
    have hb : (hi && (alookup st.userFactors u).isSome && st.itemFactors.isSome &&
        decide ((watchedOf st u).length ≥ cfg.minInteractionsForCollab)) = false := by
      cases hhi : hi <;>
        cases ha : (alookup st.userFactors u).isSome <;>
          cases hbb : st.itemFactors.isSome <;> simp_all
    exact blendScores_noCollab_content hb h5
  · intro hnone h5
    have hb : (hi && (alookup st.userFactors u).isSome && st.itemFactors.isSome &&
        decide ((watchedOf st u).length ≥ cfg.minInteractionsForCollab)) = false := by
      rw [hnone]
      simp
    exact blendScores_noCollab_trending hb h5

/-- Witness for C3: the hybrid branch fires on a trained state with a
degenerate-but-successful ALS outcome and five watched items, and the
trending branch fires for a user with no history at all. -/
theorem C3_witness :
    blendScores cmZero defaultConfig true ceState "u1" =
      (List.zipWith (fun a b => defaultConfig.collabWeight * a +
          (1 - defaultConfig.collabWeight) * b)
        (collabScoresNorm (ceState.itemFactors.getD [])
          ((alookup ceState.userFactors "u1").getD []))
        (contentScores cmZero (watchedOf ceState "u1")), "hybrid") ∧
    blendScores cmZero defaultConfig true trendState "ux" =
      (CATALOG.map (fun it => it.rating / 10), "trending") := by
  constructor
  · exact (C3_blend_priority cmZero defaultConfig true ceOutcome sampleEvents "u1"
      ceState rfl).1 rfl (by decide) (by decide) (by decide) (by decide)
  · exact (C3_blend_priority cmZero defaultConfig true .failure [] "ux"
      trendState rfl).2.2.2 (by decide) (by decide)

/-! ## C10 -/

/-- C10: in every state `train` publishes, a user-factor vector exists for a
user only if that user is indexed and their interaction-matrix row has at
least one stored entry; as a consequence the
collaborative-available-with-empty-watched-set branch can never fire and
`recommend` never labels a result `source = collaborative`. -/
theorem C10_no_collaborative_source (cfg : Config) (hi : Bool)
    (outcome : AlsOutcome) (events : List Event) (u : String) :
    ((alookup (train cfg hi outcome events).userFactors u).isSome = true →
      ∃ p, indexOfStr (train cfg hi outcome events).userIndex u = some p ∧
        ((train cfg hi outcome events).matrix.getD []).getD p [] ≠ []) ∧
    (∀ cm, (blendScores cm cfg hi (train cfg hi outcome events) u).2 ≠ "collaborative") := by
  constructor
  · intro h
    exact train_row_ne_nil h
  · intro cm
    by_cases hb : (hi &&
        (alookup (train cfg hi outcome events).userFactors u).isSome &&
        (train cfg hi outcome events).itemFactors.isSome &&
        decide ((watchedOf (train cfg hi outcome events) u).length ≥
          cfg.minInteractionsForCollab)) = true
    · have huf : (alookup (train cfg hi outcome events).userFactors u).isSome = true := by
        simp only [Bool.and_eq_true] at hb
        exact hb.1.1.2
      rw [blendScores_snd_hybrid hb (watched_ne_nil_of_uf huf)]
      decide
    · have hb' : (hi &&
          (alookup (train cfg hi outcome events).userFactors u).isSome &&
          (train cfg hi outcome events).itemFactors.isSome &&
          decide ((watchedOf (train cfg hi outcome events) u).length ≥
            cfg.minInteractionsForCollab)) = false := by
        rwa [Bool.not_eq_true] at hb
      by_cases h5 : watchedOf (train cfg hi outcome events) u = []
      · have := congrArg Prod.snd (@blendScores_noCollab_trending cm cfg hi (train cfg hi outcome events) u hb' h5)
        dsimp only at this
        rw [this]
        decide
      · have := congrArg Prod.snd (@blendScores_noCollab_content cm cfg hi (train cfg hi outcome events) u hb' h5)
        dsimp only at this
        rw [this]
        decide

/-- Witness for C10: on the degenerate trained state the user's factor
exists, the indexed row is nonempty, and the source label of a blend for
that user is not `collaborative`. -/
theorem C10_witness :
    (∃ p, indexOfStr ceState.userIndex "u1" = some p ∧
      (ceState.matrix.getD []).getD p [] ≠ []) ∧
    (blendScores cmZero defaultConfig true ceState "u1").2 ≠ "collaborative" := by
  constructor
  · exact (C10_no_collaborative_source defaultConfig true ceOutcome sampleEvents "u1").1
      (by decide)
  · exact (C10_no_collaborative_source defaultConfig true ceOutcome sampleEvents "u1").2
      cmZero

/-! ## Helper: a canonical valid selection (an argsort of the full score
vector), used to instantiate the relational top-k contract -/

/-- Insert an index into an index list kept descending by score. -/
def insertArg (fs : List ℚ) (i : ℕ) : List ℕ → List ℕ
  | [] => [i]
  | j :: js => if fs.getD j 0 ≤ fs.getD i 0 then i :: j :: js else j :: insertArg fs i js

/-- All catalog positions arranged by score descending (one of the orders
`np.argsort` may produce, reversed). -/
def argsortDesc (fs : List ℚ) : List ℕ := (List.range fs.length).foldr (insertArg fs) []

theorem insertArg_perm (fs : List ℚ) (i : ℕ) (l : List ℕ) :
    (insertArg fs i l).Perm (i :: l) := by
  induction l with
  | nil => exact List.Perm.refl _
  | cons j js ih =>
      by_cases h : fs.getD j 0 ≤ fs.getD i 0
      · simp only [insertArg, if_pos h]
        exact List.Perm.refl _
      · simp only [insertArg, if_neg h]
        exact (ih.cons j).trans (List.Perm.swap i j js)

theorem foldr_insertArg_perm (fs : List ℚ) (l : List ℕ) :
    (l.foldr (insertArg fs) []).Perm l := by
  induction l with
  | nil => exact List.Perm.refl _
  | cons x xs ih =>
      simp only [List.foldr_cons]
      exact (insertArg_perm fs x _).trans (ih.cons x)

theorem argsortDesc_perm (fs : List ℚ) :
    (argsortDesc fs).Perm (List.range fs.length) :=
  foldr_insertArg_perm fs _

theorem insertArg_sorted {fs : List ℚ} {i : ℕ} {l : List ℕ}
    (h : l.Pairwise (fun a b => fs.getD b 0 ≤ fs.getD a 0)) :
    (insertArg fs i l).Pairwise (fun a b => fs.getD b 0 ≤ fs.getD a 0) := by
  induction l with
  | nil => simp [insertArg]
  | cons j js ih =>
      by_cases hij : fs.getD j 0 ≤ fs.getD i 0
      · simp only [insertArg, if_pos hij]
        refine List.Pairwise.cons ?_ h
        intro b hb
        rcases List.mem_cons.mp hb with rfl | hb
        · exact hij
        · exact le_trans (List.rel_of_pairwise_cons h hb) hij
      · simp only [insertArg, if_neg hij]
        refine List.Pairwise.cons ?_ (ih (List.Pairwise.of_cons h))
        intro b hb
        rcases List.mem_cons.mp ((insertArg_perm fs i js).mem_iff.mp hb) with rfl | hb
        · exact le_of_not_le hij
        · exact List.rel_of_pairwise_cons h hb

theorem argsortDesc_sorted (fs : List ℚ) :
    (argsortDesc fs).Pairwise (fun a b => fs.getD b 0 ≤ fs.getD a 0) := by
  unfold argsortDesc
  induction (List.range fs.length) with
  | nil => simp
  | cons x xs ih => exact insertArg_sorted ih

theorem isValidSelection_argsort (fs : List ℚ) :
    isValidSelection fs fs.length (argsortDesc fs) := by
  have hperm := argsortDesc_perm fs
  refine ⟨by rw [hperm.length_eq, List.length_range],
    (hperm.nodup_iff).mpr (List.nodup_range _),
    fun i hi => List.mem_range.mp (hperm.mem_iff.mp hi), ?_, argsortDesc_sorted fs⟩
  have h2 : (selValues fs (argsortDesc fs)).Perm
      ((List.range fs.length).map (fun i => fs.getD i 0)) := hperm.map _
  rw [map_getD_range fs 0] at h2
  have h3 : (sortDesc fs).take fs.length = sortDesc fs := by
    apply List.take_of_length_le
    rw [(sortDesc_perm fs).length_eq]
  rw [h3]
  exact h2.trans (sortDesc_perm fs).symm

theorem isRecommendOutput_argsort (cm : ℕ → ℕ → ℚ) (cfg : Config) (hi : Bool)
    (st : RecState) (u : String) :
    isRecommendOutput cm cfg hi st u itemIds.length
      (resultsOf (recommendScores cm cfg hi st u).1 (recommendScores cm cfg hi st u).2
        (argsortDesc (recommendScores cm cfg hi st u).1) itemIds.length) := by
  refine ⟨by decide, le_refl _, argsortDesc (recommendScores cm cfg hi st u).1, ?_, rfl⟩
  have hl := recommendScores_length cm cfg hi st u
  rw [← hl]
  exact isValidSelection_argsort _

/-! ## C2 -/

/-- C2: for every state, user, `top_k` and every list `recommend` may return,
no returned item id is in the user's watched set (the stored entries of the
user's interaction-matrix row): each watched item is forced to the sentinel
score −1 and the result loop drops every negative-scored entry, in all blend
modes alike. -/
theorem C2_watched_exclusion (cm : ℕ → ℕ → ℚ) (cfg : Config) (hi : Bool)
    (st : RecState) (u : String) (k : ℕ) (out : List RecResult)
    (hout : isRecommendOutput cm cfg hi st u k out) :
    ∀ r ∈ out, r.id ∉ watchedOf st u := by
  obtain ⟨hk1, hk2, sel, ⟨hlen, hnd, hbound, hperm, hpair⟩, hout_eq⟩ := hout
  intro r hr hmem
  subst hout_eq
  have hr2 : r ∈ (sel.filter
      (fun i => decide (0 ≤ (recommendScores cm cfg hi st u).1.getD i 0))).map
      (mkResult (recommendScores cm cfg hi st u).1 (recommendScores cm cfg hi st u).2) :=
    (List.take_sublist _ _).subset hr
  obtain ⟨i, hif, hri⟩ := List.mem_map.mp hr2
  have hisel : i ∈ sel := (List.mem_filter.mp hif).1
  have hipos : (0:ℚ) ≤ (recommendScores cm cfg hi st u).1.getD i 0 :=
    of_decide_eq_true (List.mem_filter.mp hif).2
  have hilt : i < (recommendScores cm cfg hi st u).1.length := hbound i hisel
  have hilt2 : i < itemIds.length := by
    rw [← recommendScores_length cm cfg hi st u]
    exact hilt
  have hid : r.id = itemIds.getD i "" := by
    rw [← hri]
    rfl
  have hidx : itemIndex r.id = some i := by
    rw [hid]
    exact itemIndex_getD_self i hilt2
  have himem : i ∈ (watchedOf st u).filterMap itemIndex :=
    List.mem_filterMap.mpr ⟨r.id, hmem, hidx⟩
  have hlen2 : i < (blendScores cm cfg hi st u).1.length := by
    rw [blendScores_length]
    exact hilt2
  have hval : (recommendScores cm cfg hi st u).1.getD i 0 = -1 := by
    rw [recommendScores_fst]
    exact applySentinel_getD_mem himem hlen2
  rw [hval] at hipos
  norm_num at hipos

/-- The full-catalog recommendation list for a user with one watched item. -/
def C2Out : List RecResult :=
  resultsOf (recommendScores cmZero defaultConfig true contentState "u1").1
    (recommendScores cmZero defaultConfig true contentState "u1").2
    (argsortDesc (recommendScores cmZero defaultConfig true contentState "u1").1)
    itemIds.length

/-- Witness for C2: a concrete valid output for a user who watched `m001`,
and the exclusion of the watched set from it. -/
theorem C2_witness :
    isRecommendOutput cmZero defaultConfig true contentState "u1" itemIds.length C2Out ∧
    ∀ r ∈ C2Out, r.id ∉ watchedOf contentState "u1" :=
  ⟨isRecommendOutput_argsort cmZero defaultConfig true contentState "u1",
   C2_watched_exclusion cmZero defaultConfig true contentState "u1" itemIds.length C2Out
     (isRecommendOutput_argsort cmZero defaultConfig true contentState "u1")⟩

/-! ## C8 -/

/-- C8 (amended): when collaborative scoring is active, the raw score vector
`item_factors · user_factor` is min-max rescaled to `[0,1]` whenever the
range is positive; when the range collapses (max = min) the code avoids the
division by zero by leaving the vector UNCHANGED (the constant vector), not
by zeroing it. -/
theorem C8_minmax_normalization (itf : List (List ℚ)) (uf : List ℚ) :
    (listMax (rawCollabScores itf uf) > listMin (rawCollabScores itf uf) →
      collabScoresNorm itf uf = (rawCollabScores itf uf).map
        (fun x => (x - listMin (rawCollabScores itf uf)) /
          (listMax (rawCollabScores itf uf) - listMin (rawCollabScores itf uf))) ∧
      (∀ v ∈ collabScoresNorm itf uf, 0 ≤ v ∧ v ≤ 1)) ∧
    (¬ listMax (rawCollabScores itf uf) > listMin (rawCollabScores itf uf) →
      collabScoresNorm itf uf = rawCollabScores itf uf) := by
  constructor
  · intro h
    have heq : collabScoresNorm itf uf = (rawCollabScores itf uf).map
        (fun x => (x - listMin (rawCollabScores itf uf)) /
          (listMax (rawCollabScores itf uf) - listMin (rawCollabScores itf uf))) := by
      simp only [collabScoresNorm, normalizeMinMax]
      rw [if_pos h]
    refine ⟨heq, ?_⟩
    intro v hv
    rw [heq] at hv
    obtain ⟨x, hx, rfl⟩ := List.mem_map.mp hv
    have h1 := listMin_le_mem hx
    have h2 := mem_le_listMax hx
    have hpos : 0 < listMax (rawCollabScores itf uf) - listMin (rawCollabScores itf uf) := by
      linarith
    constructor
    · apply div_nonneg <;> linarith
    · rw [div_le_one hpos]
      linarith
  · intro h
    simp only [collabScoresNorm, normalizeMinMax]
    rw [if_neg h]

theorem foldl_max_replicate (n : ℕ) (a : ℚ) : (List.replicate n a).foldl max a = a := by
  induction n with
  | zero => rfl
  | succ m ih => simp [List.replicate_succ, ih]

theorem foldl_min_replicate (n : ℕ) (a : ℚ) : (List.replicate n a).foldl min a = a := by
  induction n with
  | zero => rfl
  | succ m ih => simp [List.replicate_succ, ih]

theorem listMax_replicate_succ (n : ℕ) (a : ℚ) :
    listMax (List.replicate (n + 1) a) = a := by
  rw [List.replicate_succ]
  exact foldl_max_replicate n a

theorem listMin_replicate_succ (n : ℕ) (a : ℚ) :
    listMin (List.replicate (n + 1) a) = a := by
  rw [List.replicate_succ]
  exact foldl_min_replicate n a

theorem rawCollabScores_replicate :
    rawCollabScores (List.replicate 50 [1]) [1] = List.replicate 50 (dot [1] [1]) := by
  have hlen : itemIds.length = 50 := by decide
  apply List.ext_getElem
  · simp [rawCollabScores, hlen]
  · intro i h1 h2
    simp only [rawCollabScores, List.getElem_map, List.getElem_range, List.getElem_replicate]
    congr 1
    have hi : i < 50 := by
      simpa [rawCollabScores, hlen] using h1
    rw [List.getD_eq_getElem _ _ (by simpa using hi)]
    simp only [List.getElem_replicate]

theorem listMax_replicate_50 (a : ℚ) : listMax (List.replicate 50 a) = a :=
  listMax_replicate_succ 49 a

theorem listMin_replicate_50 (a : ℚ) : listMin (List.replicate 50 a) = a :=
  listMin_replicate_succ 49 a

theorem collabScoresNorm_replicate :
    collabScoresNorm (List.replicate 50 [1]) [1] = List.replicate 50 (dot [1] [1]) := by
  have hng : ¬ listMax (List.replicate 50 (dot [1] [1])) >
      listMin (List.replicate 50 (dot [1] [1])) := by
    rw [listMax_replicate_50, listMin_replicate_50]
    exact lt_irrefl _
  simp only [collabScoresNorm, normalizeMinMax, rawCollabScores_replicate]
  rw [if_neg hng]

theorem contentScores_cmZero (w : List String) :
    contentScores cmZero w = List.replicate itemIds.length 0 := by
  by_cases h : (w.filterMap itemIndex).length > 0
  · simp [contentScores, cmZero, h, List.map_const', div_eq_mul_inv]
  · simp [contentScores, cmZero, h, List.map_const']

/-- The score vector the degenerate trained state actually produces for the
collaborative user: constant `0.7`, not the zero vector the claim's
zero-on-collapse rule (with identically-zero content scores) would force. -/
theorem C8_counterexample :
    listMax (rawCollabScores (List.replicate 50 [1]) [1]) =
      listMin (rawCollabScores (List.replicate 50 [1]) [1]) ∧
    collabScoresNorm (List.replicate 50 [1]) [1] ≠ List.replicate 50 0 ∧
    (blendScores cmZero defaultConfig true ceState "u1").1 = List.replicate 50 (7/10) ∧
    (blendScores cmZero defaultConfig true ceState "u1").1 ≠ List.replicate 50 0 := by
  have hdot : dot [1] [1] = 1 := by norm_num [dot]
  have hmax : listMax (rawCollabScores (List.replicate 50 [1]) [1]) = 1 := by
    rw [rawCollabScores_replicate, hdot, listMax_replicate_50]
  have hmin : listMin (rawCollabScores (List.replicate 50 [1]) [1]) = 1 := by
    rw [rawCollabScores_replicate, hdot, listMin_replicate_50]
  have hblend : (blendScores cmZero defaultConfig true ceState "u1").1 =
      List.replicate 50 (7/10) := by
    have h := @blendScores_hybrid cmZero defaultConfig true ceState "u1"
      rfl (by decide) (by decide) (by decide) (by decide)
    rw [h]
    dsimp only
    have hitf : ceState.itemFactors.getD [] = List.replicate 50 [1] := rfl
    have huf : (alookup ceState.userFactors "u1").getD [] = [1] := rfl
    rw [hitf, huf, collabScoresNorm_replicate, hdot, contentScores_cmZero,
      show itemIds.length = 50 from by decide, List.zipWith_replicate]
    norm_num [defaultConfig]
  refine ⟨hmax.trans hmin.symm, ?_, hblend, ?_⟩
  · rw [collabScoresNorm_replicate, hdot]
    intro hcon
    have h50 : (50:ℕ) ≠ 0 := by norm_num
    have := List.replicate_right_injective h50 hcon
    norm_num at this
  · rw [hblend]
    intro hcon
    have h50 : (50:ℕ) ≠ 0 := by norm_num
    have := List.replicate_right_injective h50 hcon
    norm_num at this

/-- Witness for C8 (amended): a spread-out raw vector is rescaled into
`[0,1]`, and a collapsed raw vector is left unchanged. -/
theorem C8_witness :
    listMax (rawCollabScores [[1], [2]] [1]) > listMin (rawCollabScores [[1], [2]] [1]) ∧
    (∀ v ∈ collabScoresNorm [[1], [2]] [1], 0 ≤ v ∧ v ≤ 1) ∧
    collabScoresNorm (List.replicate 50 [1]) [1] =
      rawCollabScores (List.replicate 50 [1]) [1] := by
  have h0 : (0:ℚ) ∈ rawCollabScores [[1], [2]] [1] := by
    refine List.mem_map.mpr ⟨2, ?_, rfl⟩
    decide
  have h2 : (2 * 1 + 0 : ℚ) ∈ rawCollabScores [[1], [2]] [1] := by
    refine List.mem_map.mpr ⟨1, ?_, rfl⟩
    decide
  have hgt : listMax (rawCollabScores [[1], [2]] [1]) >
      listMin (rawCollabScores [[1], [2]] [1]) := by
    have ha := listMin_le_mem h0
    have hb := mem_le_listMax h2
    have hc : (0:ℚ) < 2 * 1 + 0 := by norm_num
    linarith
  have hcol : ¬ listMax (rawCollabScores (List.replicate 50 [1]) [1]) >
      listMin (rawCollabScores (List.replicate 50 [1]) [1]) := by
    rw [rawCollabScores_replicate,
      show List.replicate 50 (dot [1] [1]) = List.replicate (49 + 1) (dot [1] [1]) from rfl,
      listMax_replicate_succ, listMin_replicate_succ]
    exact lt_irrefl _
  exact ⟨hgt, ((C8_minmax_normalization [[1], [2]] [1]).1 hgt).2,
    (C8_minmax_normalization (List.replicate 50 [1]) [1]).2 hcol⟩

/-! ## C6 -/

/-- C6: for every interleaving of one `recommend` snapshot block with one
`train` publication block that the shared lock admits, once the reader has
finished, its five locals all come from ONE memory state - either entirely
the pre-retrain snapshot or entirely the published post-retrain snapshot
(the state built by `train`).  No mix of old matrix with new factors (or
vice versa) is observable, so the factor model a reader sees is always
paired with its own `item_factors`. -/
theorem C6_snapshot_consistency (pre : Mem) (cfg : Config) (hi : Bool)
    (outcome : AlsOutcome) (events : List Event) (t : ℕ) (u : String)
    (sched : List Bool)
    (h : (runSched pre (memOfState (train cfg hi outcome events) t) u sched initSys).rpc = 7) :
    (runSched pre (memOfState (train cfg hi outcome events) t) u sched initSys).locals =
        snapshotLocals pre u ∨
    (runSched pre (memOfState (train cfg hi outcome events) t) u sched initSys).locals =
        snapshotLocals (memOfState (train cfg hi outcome events) t) u := by
  have hinv := runSched_inv pre (memOfState (train cfg hi outcome events) t) u sched
    (sysInv_init pre (memOfState (train cfg hi outcome events) t) u)
  obtain ⟨_, _, _, _, _, _, h7⟩ := hinv
  rcases h7 (by rw [h]; omega) with ⟨ha, _⟩ | ⟨ha, _⟩
  · left
    rw [ha, h, localsUpTo_snapshot]
  · right
    rw [ha, h, localsUpTo_snapshot]

/-- A concrete interleaving: the writer publishes fully, then the reader
reads. -/
def wSched : List Bool := List.replicate 10 true ++ List.replicate 7 false

/-- Witness for C6 at a concrete schedule, pre-state and trained post-state:
the reader finishes and sees one of the two snapshots. -/
theorem C6_witness :
    (runSched (memOfState trendState 0)
      (memOfState (train defaultConfig true ceOutcome sampleEvents) 1) "u1" wSched
      initSys).rpc = 7 ∧
    ((runSched (memOfState trendState 0)
        (memOfState (train defaultConfig true ceOutcome sampleEvents) 1) "u1" wSched
        initSys).locals = snapshotLocals (memOfState trendState 0) "u1" ∨
     (runSched (memOfState trendState 0)
        (memOfState (train defaultConfig true ceOutcome sampleEvents) 1) "u1" wSched
        initSys).locals =
        snapshotLocals (memOfState (train defaultConfig true ceOutcome sampleEvents) 1) "u1") := by
  have hr : (runSched (memOfState trendState 0)
      (memOfState (train defaultConfig true ceOutcome sampleEvents) 1) "u1" wSched
      initSys).rpc = 7 := by decide
  exact ⟨hr, C6_snapshot_consistency (memOfState trendState 0) defaultConfig true
    ceOutcome sampleEvents 1 "u1" wSched hr⟩

/-! ## C4 -/

/-- C4 (amended): for `1 ≤ top_k ≤ catalog size`, every list `recommend` may
return has at most `top_k` records, whose rounded scores are weakly
descending; each returned record is a catalog item with non-negative final
score; and whenever a non-negative-scored item is not returned, the list is
full (exactly `top_k` records) and every returned item scores at least as
high - so all non-excluded items are returned whenever fewer than `top_k` of
them exist.  (For `top_k` above the catalog size the selection primitive
raises instead of returning - see the counterexample - and the order among
equal scores is whatever the unstable partial sort yields, not catalog
order.) -/
theorem C4_topk_selection (cm : ℕ → ℕ → ℚ) (cfg : Config) (hi : Bool)
    (st : RecState) (u : String) (k : ℕ) (out : List RecResult)
    (hout : isRecommendOutput cm cfg hi st u k out) :
    out.length ≤ k ∧
    (out.map (fun r => r.score)).Pairwise (· ≥ ·) ∧
    (∀ r ∈ out, ∃ i, itemIndex r.id = some i ∧
      0 ≤ (recommendScores cm cfg hi st u).1.getD i 0 ∧
      r = mkResult (recommendScores cm cfg hi st u).1 (recommendScores cm cfg hi st u).2 i) ∧
    (∀ j, j < itemIds.length → 0 ≤ (recommendScores cm cfg hi st u).1.getD j 0 →
      itemIds.getD j "" ∉ out.map (fun r => r.id) →
      out.length = k ∧ ∀ r ∈ out, ∀ i, itemIndex r.id = some i →
        (recommendScores cm cfg hi st u).1.getD j 0 ≤
          (recommendScores cm cfg hi st u).1.getD i 0) := by
  obtain ⟨hk1, hk2, sel, ⟨hlen, hnd, hbound, hperm, hpair⟩, hout_eq⟩ := hout
  have hfslen : (recommendScores cm cfg hi st u).1.length = itemIds.length :=
    recommendScores_length cm cfg hi st u
  have hfl : (sel.filter
      (fun i => decide (0 ≤ (recommendScores cm cfg hi st u).1.getD i 0))).length ≤ k := by
    rw [← hlen]
    exact List.length_filter_le _ _
  have htake : out = (sel.filter
      (fun i => decide (0 ≤ (recommendScores cm cfg hi st u).1.getD i 0))).map
      (mkResult (recommendScores cm cfg hi st u).1 (recommendScores cm cfg hi st u).2) := by
    rw [hout_eq]
    unfold resultsOf
    apply List.take_of_length_le
    rw [List.length_map]
    exact hfl
  have hmem_char : ∀ r ∈ out, ∃ i, i ∈ sel ∧
      0 ≤ (recommendScores cm cfg hi st u).1.getD i 0 ∧
      r = mkResult (recommendScores cm cfg hi st u).1 (recommendScores cm cfg hi st u).2 i ∧
      itemIndex r.id = some i := by
    intro r hr
    rw [htake] at hr
    obtain ⟨i, hif, hri⟩ := List.mem_map.mp hr
    have hisel : i ∈ sel := (List.mem_filter.mp hif).1
    have hipos : (0:ℚ) ≤ (recommendScores cm cfg hi st u).1.getD i 0 :=
      of_decide_eq_true (List.mem_filter.mp hif).2
    have hilt : i < itemIds.length := by
      rw [← hfslen]
      exact hbound i hisel
    refine ⟨i, hisel, hipos, hri.symm, ?_⟩
    rw [← hri]
    exact itemIndex_getD_self i hilt
  refine ⟨?_, ?_, ?_, ?_⟩
  · rw [hout_eq]
    unfold resultsOf
    exact List.length_take_le _ _
  · rw [htake]
    apply List.pairwise_map.mpr
    apply List.pairwise_map.mpr
    have h1 : (sel.filter
        (fun i => decide (0 ≤ (recommendScores cm cfg hi st u).1.getD i 0))).Pairwise
        (fun a b => (recommendScores cm cfg hi st u).1.getD b 0 ≤
          (recommendScores cm cfg hi st u).1.getD a 0) :=
      hpair.sublist (List.filter_sublist sel)
    exact h1.imp (fun h => round4_mono h)
  · intro r hr
    obtain ⟨i, _, hipos, hri, hidx⟩ := hmem_char r hr
    exact ⟨i, hidx, hipos, hri⟩
  · intro j hj hjpos hjnot
    have hjlt : j < (recommendScores cm cfg hi st u).1.length := by
      rw [hfslen]
      exact hj
    have hjsel : j ∉ sel := by
      intro hjin
      apply hjnot
      have hjf : j ∈ sel.filter
          (fun i => decide (0 ≤ (recommendScores cm cfg hi st u).1.getD i 0)) :=
        List.mem_filter.mpr ⟨hjin, decide_eq_true hjpos⟩
      apply List.mem_map.mpr
      refine ⟨mkResult (recommendScores cm cfg hi st u).1
        (recommendScores cm cfg hi st u).2 j, ?_, rfl⟩
      rw [htake]
      exact List.mem_map.mpr ⟨j, hjf, rfl⟩
    have hrest := selValues_complement hnd hbound hperm
    have hjrest : (recommendScores cm cfg hi st u).1.getD j 0 ∈
        selValues (recommendScores cm cfg hi st u).1
          ((List.range (recommendScores cm cfg hi st u).1.length).filter
            (fun i => decide (i ∉ sel))) :=
      List.mem_map.mpr ⟨j,
        List.mem_filter.mpr ⟨List.mem_range.mpr hjlt, decide_eq_true hjsel⟩, rfl⟩
    have hjdrop : (recommendScores cm cfg hi st u).1.getD j 0 ∈
        (sortDesc (recommendScores cm cfg hi st u).1).drop k := hrest.mem_iff.mp hjrest
    have key : ∀ i ∈ sel, (recommendScores cm cfg hi st u).1.getD j 0 ≤
        (recommendScores cm cfg hi st u).1.getD i 0 := by
      intro i hmemi
      have hvi : (recommendScores cm cfg hi st u).1.getD i 0 ∈
          (sortDesc (recommendScores cm cfg hi st u).1).take k :=
        hperm.mem_iff.mp (List.mem_map.mpr ⟨i, hmemi, rfl⟩)
      exact sorted_take_drop_le (sortDesc_sorted _) k hvi hjdrop
    constructor
    · have hfe : sel.filter
          (fun i => decide (0 ≤ (recommendScores cm cfg hi st u).1.getD i 0)) = sel := by
        apply List.filter_eq_self.mpr
        intro i hmemi
        exact decide_eq_true (le_trans hjpos (key i hmemi))
      rw [htake, hfe, List.length_map, hlen]
    · intro r hr i hidx
      obtain ⟨i0, hi0sel, _, _, hidx0⟩ := hmem_char r hr
      have h12 : i = i0 := by
        rw [hidx] at hidx0
        exact Option.some.inj hidx0
      rw [h12]
      exact key i0 hi0sel

/-- The full-catalog recommendation list for a cold-start user. -/
def C4Out : List RecResult :=
  resultsOf (recommendScores cmZero defaultConfig true trendState "ux").1
    (recommendScores cmZero defaultConfig true trendState "ux").2
    (argsortDesc (recommendScores cmZero defaultConfig true trendState "ux").1)
    itemIds.length

/-- Witness for C4 (amended): a concrete valid output at `top_k` = catalog
size; the theorem yields its length bound and descending rounded scores. -/
theorem C4_witness :
    isRecommendOutput cmZero defaultConfig true trendState "ux" itemIds.length C4Out ∧
    C4Out.length ≤ itemIds.length ∧
    (C4Out.map (fun r => r.score)).Pairwise (· ≥ ·) := by
  have h := isRecommendOutput_argsort cmZero defaultConfig true trendState "ux"
  have h2 := C4_topk_selection cmZero defaultConfig true trendState "ux" itemIds.length
    C4Out h
  exact ⟨h, h2.1, h2.2.1⟩

/-- The final score vector for the one-watched-item user: −1 at the watched
catalog position 0, zero elsewhere (the all-zero content matrix `cmZero`
gives identically-zero content scores before the sentinel overwrite). -/
theorem contentState_scores :
    (recommendScores cmZero defaultConfig true contentState "u1").1 =
      (-1) :: List.replicate 49 0 := by
  have hb : (true && (alookup contentState.userFactors "u1").isSome &&
      contentState.itemFactors.isSome &&
      decide ((watchedOf contentState "u1").length ≥
        defaultConfig.minInteractionsForCollab)) = false := by decide
  have h5 : watchedOf contentState "u1" ≠ [] := by decide
  have hwatched : watchedOf contentState "u1" = ["m001"] := by decide
  have hb1 := congrArg Prod.fst
    (@blendScores_noCollab_content cmZero defaultConfig true contentState "u1" hb h5)
  dsimp only at hb1
  rw [recommendScores_fst, hb1, contentScores_cmZero, hwatched]
  rfl

/-- A selection the numpy contract admits for the tied scores: position 2
(`m003`) ordered before position 1 (`m002`) although both score 0. -/
def C4TieOut : List RecResult :=
  resultsOf (recommendScores cmZero defaultConfig true contentState "u1").1
    (recommendScores cmZero defaultConfig true contentState "u1").2 [2, 1] 2

/-- Counterexample to C4 as stated.  First part: for `top_k = 51 > 50`
(catalog size) no output exists - `np.argpartition(fs, -51)` on a length-50
vector raises `ValueError` instead of returning all available items.  Second
part: items `m002` (catalog position 1) and `m003` (position 2) have equal
final scores for this user, yet `[m003, m002]` - the reverse of catalog
order on the tie - is an output the contract of the selection primitives
admits, so ties are NOT guaranteed to be broken by catalog order. -/
theorem C4_counterexample :
    (¬ ∃ out, isRecommendOutput cmZero defaultConfig true trendState "ux" 51 out) ∧
    isRecommendOutput cmZero defaultConfig true contentState "u1" 2 C4TieOut ∧
    C4TieOut.map (fun r => r.id) = ["m003", "m002"] ∧
    (recommendScores cmZero defaultConfig true contentState "u1").1.getD 1 0 =
      (recommendScores cmZero defaultConfig true contentState "u1").1.getD 2 0 := by
  have hfsAll := contentState_scores
  haveI : IsAntisymm ℚ (· ≥ ·) := ⟨fun a b x y => le_antisymm y x⟩
  have hcand : (List.replicate 49 (0:ℚ) ++ [-1]).Sorted (· ≥ ·) := by
    apply List.pairwise_append.mpr
    refine ⟨List.pairwise_replicate.mpr (Or.inr (le_refl 0)),
      List.pairwise_singleton _ _, ?_⟩
    intro a ha b hb
    have ha0 : a = 0 := List.eq_of_mem_replicate ha
    have hb1 : b = -1 := List.mem_singleton.mp hb
    rw [ha0, hb1]
    norm_num
  have hsort : sortDesc ((-1) :: List.replicate 49 (0:ℚ)) =
      List.replicate 49 0 ++ [-1] :=
    List.eq_of_perm_of_sorted
      ((sortDesc_perm _).trans ((List.perm_append_singleton _ _).symm))
      (sortDesc_sorted _) hcand
  have htk : (sortDesc ((-1) :: List.replicate 49 (0:ℚ))).take 2 = [0, 0] := by
    rw [hsort, List.take_append_of_le_length (by simp), List.take_replicate]
    rfl
  have hvalid0 : isValidSelection ((-1) :: List.replicate 49 (0:ℚ)) 2 [2, 1] := by
    refine ⟨rfl, by decide, by decide, ?_, ?_⟩
    · rw [htk]
      have hsv : selValues ((-1) :: List.replicate 49 (0:ℚ)) [2, 1] = [0, 0] := rfl
      rw [hsv]
    · refine List.Pairwise.cons ?_ (List.pairwise_singleton _ _)
      intro b hb
      rw [List.mem_singleton] at hb
      subst hb
      exact le_refl 0
  have hvalid : isValidSelection
      (recommendScores cmZero defaultConfig true contentState "u1").1 2 [2, 1] := by
    rw [hfsAll]
    exact hvalid0
  have hfil : ([2, 1].filter (fun i =>
      decide (0 ≤ (((-1 : ℚ) :: List.replicate 49 0).getD i 0)))) = [2, 1] := by
    apply List.filter_eq_self.mpr
    intro a ha
    rcases List.mem_cons.mp ha with rfl | ha
    · exact decide_eq_true (le_refl 0)
    · rcases List.mem_cons.mp ha with rfl | ha
      · exact decide_eq_true (le_refl 0)
      · simp at ha
  refine ⟨?_, ⟨by omega, by decide, [2, 1], hvalid, rfl⟩, ?_, ?_⟩
  · rintro ⟨out, h1, h2, _⟩
    have h50 : itemIds.length = 50 := by decide
    omega
  · show ((((resultsOf (recommendScores cmZero defaultConfig true contentState "u1").1
      (recommendScores cmZero defaultConfig true contentState "u1").2 [2, 1] 2))).map
      (fun r => r.id)) = ["m003", "m002"]
    unfold resultsOf
    rw [hfsAll, hfil]
    rfl
  · rw [hfsAll]
    rfl

end Recommender
